import Mathlib

/-!
Verification development for the procoreAI report worker core.

The TypeScript sources are shallowly embedded as Lean definitions:

* `src/procoreImages.ts` — `ProcoreImage`, `getImageDate`, `groupImagesByDate`;
* `src/imageCandidateSelection.ts` — `shiftDate`, `finalizeSelection`,
  `selectCandidateImagesForMonth` (pass 1 / pass 2 loops become structural
  recursions `addGroup` / `addDates` / `pass1` / `fillRemaining`);
* `src/reportValidation.ts` — `validateReportData`;
* `src/pipeline/generateReport.ts` — the stage sequence with its try/catch,
  collaborator calls abstracted as `Collaborators` fields, the emitted
  collaborator invocations recorded in a trace;
* `src/worker/reportWorker.ts` — the job store rows (`OwnerReport`),
  `pollForPendingJob`, `markJobProcessing`, `processJob` (as the list of
  store writes it performs), and `cleanupExpiredReports`.

Modelling conventions:
* JavaScript strings are Lean `String`s; `localeCompare` on the ASCII
  date/key strings used here is modelled as code-point lexicographic
  comparison (`strLtb`); `Array.prototype.sort` (stable since ES2019) is
  modelled as `List.insertionSort` (stable) on the relation
  "comparator ≤ 0".
* JavaScript `Map` (insertion-ordered, `set` replaces in place) is modelled
  as an insertion-ordered list: `mapSet` for `Map.set`, `selHas` for
  `Map.has`, and an association list for `groupImagesByDate`.
* JS numbers that hold integers (ids, sizes, priorities, timestamps) are
  `Int` or `Nat`; `Date.UTC`/`getUTC*` day arithmetic is embedded by the
  standard civil-calendar conversions `daysFromCivil` / `civilFromDays`,
  which also normalise out-of-range fields exactly as `Date.UTC` does.
* `Number(...)` applied to the pieces of a `YYYY-MM-DD` string is modelled
  by `jsNumber` (`""` is 0, digit strings parse, anything else is NaN,
  modelled as `none`); an unparseable date makes `shiftDate` return the
  `"NaN-NaN-NaN"` string that the source produces in that case.
-/

deriving instance DecidableEq for Except

/-! ## Code-point lexicographic string comparison (model of `localeCompare < 0`) -/

/-- Strict lexicographic order on character lists by code point. -/
def lexLt : List Char → List Char → Bool
  | [], [] => false
  | [], _ :: _ => true
  | _ :: _, [] => false
  | a :: as, b :: bs => if a < b then true else if b < a then false else lexLt as bs

/-- `a.localeCompare(b) < 0` for the ASCII strings this code compares. -/
def strLtb (a b : String) : Bool := lexLt a.data b.data

/-! ## JS helpers used by `shiftDate` -/

/-- `String.prototype.split(sep)` for a one-character separator, on char lists. -/
def splitCharAux (sep : Char) : List Char → List Char → List String
  | [], acc => [String.mk acc.reverse]
  | c :: cs, acc =>
      if c = sep then String.mk acc.reverse :: splitCharAux sep cs []
      else splitCharAux sep cs (c :: acc)

/-- `s.split("-")` (the only split the selector performs). -/
def jsSplitDash (s : String) : List String := splitCharAux '-' s.data []

/-- Value of a digit list read left to right. -/
def natOfDigits : List Char → Nat → Option Nat
  | [], acc => some acc
  | c :: cs, acc =>
      if c.isDigit then natOfDigits cs (acc * 10 + (c.toNat - '0'.toNat))
      else none

/-- `Number(s)` restricted to the shapes that can reach `shiftDate`:
`""` is `0`, an optionally `-`-signed digit string is its value, anything
else is NaN (`none`).  (JS `Number` also accepts floats and whitespace,
which never occur for pieces of a `YYYY-MM-DD` string.) -/
def jsNumber (s : String) : Option Int :=
  match s.data with
  | [] => some (0 : Int)
  | '-' :: rest =>
      match rest with
      | [] => none
      | _ => (natOfDigits rest 0).map (fun n => -(n : Int))
  | l => (natOfDigits l 0).map (fun n => (n : Int))

/-- `Number` of a possibly missing destructured split component
(JS `Number(undefined)` is NaN). -/
def jsNumberOpt : Option String → Option Int
  | none => none
  | some s => jsNumber s

/-- `String(n).padStart(2, "0")`. -/
def padStart2 (s : String) : String :=
  if s.length ≥ 2 then s else "0" ++ s

/-! ## Civil calendar arithmetic (model of `Date.UTC` / `getUTC*`) -/

/-- Days since 1970-01-01 of the civil date `(y, m, d)`; `m` is first
normalised into `1..12` the way `Date.UTC(y, m-1, d)` does, and `d` may be
any integer (out-of-range days roll over exactly as in `Date.UTC`). -/
def daysFromCivil (y m d : Int) : Int :=
  let ym := y + Int.fdiv (m - 1) 12
  let mm := Int.emod (m - 1) 12 + 1
  let y2 := if mm ≤ 2 then ym - 1 else ym
  let era := Int.fdiv y2 400
  let yoe := y2 - era * 400
  let mp := if mm > 2 then mm - 3 else mm + 9
  let doy := Int.fdiv (153 * mp + 2) 5 + d - 1
  let doe := yoe * 365 + Int.fdiv yoe 4 - Int.fdiv yoe 100 + doy
  era * 146097 + doe - 719468

/-- Civil date `(y, m, d)` of a count of days since 1970-01-01. -/
def civilFromDays (z0 : Int) : Int × Int × Int :=
  let z := z0 + 719468
  let era := Int.fdiv z 146097
  let doe := z - era * 146097
  let yoe := Int.fdiv (doe - Int.fdiv doe 1460 + Int.fdiv doe 36524 - Int.fdiv doe 146096) 365
  let y := yoe + era * 400
  let doy := doe - (365 * yoe + Int.fdiv yoe 4 - Int.fdiv yoe 100)
  let mp := Int.fdiv (5 * doy + 2) 153
  let d := doy - Int.fdiv (153 * mp + 2) 5 + 1
  let m := if mp < 10 then mp + 3 else mp - 9
  (if m ≤ 2 then y + 1 else y, m, d)

/-- `shiftDate` from `src/imageCandidateSelection.ts`: split on `-`,
`Number` the pieces, build `Date.UTC(year, month - 1, day + offsetDays)` and
re-format as `YYYY-MM-DD`.  An unparseable piece makes the JS date invalid
and every `getUTC*` accessor NaN, so the formatted result is
`"NaN-NaN-NaN"`. -/
def shiftDate (dateStr : String) (offsetDays : Int) : String :=
  let parts := jsSplitDash dateStr
  match jsNumberOpt parts[0]?, jsNumberOpt parts[1]?, jsNumberOpt parts[2]? with
  | some year, some month, some day =>
      let c := civilFromDays (daysFromCivil year month (day + offsetDays))
      toString c.1 ++ "-" ++ padStart2 (toString c.2.1) ++ "-" ++ padStart2 (toString c.2.2)
  | _, _, _ => "NaN-NaN-NaN"

/-! ## `src/procoreImages.ts`: images and date normalisation -/

/-- The fields of `ProcoreImage` that the worker core reads.  `created_at`
is a required string in the source (but may fail the `length >= 10` check);
the optional fields are `Option`s. -/
structure ProcoreImage where
  id : Int
  log_date : Option String
  created_at : String
  description : Option String
  size : Option Int
  filename : Option String
  deriving Repr, DecidableEq

/-- `getImageDate`: prefer a usable `log_date`, fall back to `created_at`,
else `null`.  (`img.log_date && img.log_date.length >= 10` is falsy exactly
when `log_date` is absent or shorter than 10 chars.) -/
def getImageDate (img : ProcoreImage) : Option String :=
  if (img.log_date.getD "").length ≥ 10 then some ((img.log_date.getD "").take 10)
  else if img.created_at.length ≥ 10 then some (img.created_at.take 10)
  else none

/-- One step of `groupImagesByDate`: push onto the entry for `d`, creating
it at the end if absent — exactly `Map.get`/`push`/`Map.set` on an
insertion-ordered map. -/
def addToGroup (m : List (String × List ProcoreImage)) (d : String) (img : ProcoreImage) :
    List (String × List ProcoreImage) :=
  if m.any (fun p => p.1 == d) then
    m.map (fun p => if p.1 == d then (p.1, p.2 ++ [img]) else p)
  else m ++ [(d, [img])]

/-- The body of `groupImagesByDate`'s loop: images with no determinable
date are skipped (`if (!date) continue`). -/
def groupStep (m : List (String × List ProcoreImage)) (img : ProcoreImage) :
    List (String × List ProcoreImage) :=
  match getImageDate img with
  | none => m
  | some d => addToGroup m d img

/-- `groupImagesByDate`. -/
def groupImagesByDate (images : List ProcoreImage) : List (String × List ProcoreImage) :=
  images.foldl groupStep []

/-- `byDate.get(d)`, with a missing entry read as the empty list (the
source's `if (!imgs) continue`). -/
def byDateGet (m : List (String × List ProcoreImage)) (d : String) : List ProcoreImage :=
  match m.find? (fun p => p.1 == d) with
  | some p => p.2
  | none => []

/-! ## `src/imageCandidateSelection.ts`: the candidate selector -/

/-- `PhotoDaySuggestion`. -/
structure PhotoDaySuggestion where
  date : String
  reason : Option String
  priority : Option Int
  deriving Repr, DecidableEq

def DEFAULT_MAX_CANDIDATES : Nat := 60
def DEFAULT_MIN_CANDIDATES : Nat := 20

/-- `selectedById.has(id)`. -/
def selHas (sel : List ProcoreImage) (id : Int) : Bool :=
  sel.any (fun x => x.id == id)

/-- `selectedById.set(img.id, img)`: replace in place if the id is present
(JS `Map.set` keeps the key's position), else append. -/
def mapSet (sel : List ProcoreImage) (img : ProcoreImage) : List ProcoreImage :=
  if selHas sel img.id then sel.map (fun x => if x.id == img.id then img else x)
  else sel ++ [img]

/-- The pass-1 inner loop over one date group: skip already-selected ids,
insert, and report `true` the moment `selectedById.size >= maxCandidates`
(the source's early `return`). -/
def addGroup (maxCandidates : Nat) (sel : List ProcoreImage) :
    List ProcoreImage → List ProcoreImage × Bool
  | [] => (sel, false)
  | img :: rest =>
      if selHas sel img.id then addGroup maxCandidates sel rest
      else
        let sel' := sel ++ [img]
        if maxCandidates ≤ sel'.length then (sel', true)
        else addGroup maxCandidates sel' rest

/-- The pass-1 loop over the three date variants of one suggestion. -/
def addDates (maxCandidates : Nat) (m : List (String × List ProcoreImage))
    (sel : List ProcoreImage) : List String → List ProcoreImage × Bool
  | [] => (sel, false)
  | d :: ds =>
      match addGroup maxCandidates sel (byDateGet m d) with
      | (sel', true) => (sel', true)
      | (sel', false) => addDates maxCandidates m sel' ds

/-- Pass 1: for each suggestion in sorted order, the suggestion's date and
its true-calendar neighbours; the `Bool` records the early `return`. -/
def pass1 (maxCandidates : Nat) (m : List (String × List ProcoreImage))
    (sel : List ProcoreImage) : List PhotoDaySuggestion → List ProcoreImage × Bool
  | [] => (sel, false)
  | day :: rest =>
      let variants := [day.date, shiftDate day.date (-1), shiftDate day.date 1]
      match addDates maxCandidates m sel variants with
      | (sel', true) => (sel', true)
      | (sel', false) => pass1 maxCandidates m sel' rest

/-- The suggestion comparator as "compare ≤ 0": priority (missing is the
sentinel `999`) ascending, ties by `date.localeCompare` ascending. -/
def suggLe (a b : PhotoDaySuggestion) : Bool :=
  let pa := a.priority.getD 999
  let pb := b.priority.getD 999
  if pa == pb then strLtb a.date b.date || a.date == b.date
  else decide (pa < pb)

def suggR (a b : PhotoDaySuggestion) : Prop := suggLe a b = true

instance : DecidableRel suggR := fun a b => inferInstanceAs (Decidable (suggLe a b = true))

/-- `!!(description && description.trim().length > 0)`: JS `trim` strips
whitespace from both ends; only the resulting length matters. -/
def hasDesc (img : ProcoreImage) : Bool :=
  match img.description with
  | some s => decide (0 < ((s.data.dropWhile Char.isWhitespace).reverse.dropWhile
      Char.isWhitespace).length)
  | none => false

/-- The pass-2 comparator as "compare ≤ 0": described images first, then
byte size descending with a missing size read as 0. -/
def pass2Le (a b : ProcoreImage) : Bool :=
  if hasDesc a && !hasDesc b then true
  else if !hasDesc a && hasDesc b then false
  else decide (b.size.getD 0 ≤ a.size.getD 0)

def pass2R (a b : ProcoreImage) : Prop := pass2Le a b = true

instance : DecidableRel pass2R := fun a b => inferInstanceAs (Decidable (pass2Le a b = true))

/-- The pass-2 fill loop: `set` unconditionally (the list was pre-filtered
against `selectedById`), breaking once `selectedById.size >= maxCandidates`. -/
def fillRemaining (maxCandidates : Nat) (sel : List ProcoreImage) :
    List ProcoreImage → List ProcoreImage
  | [] => sel
  | img :: rest =>
      let sel' := mapSet sel img
      if maxCandidates ≤ sel'.length then sel'
      else fillRemaining maxCandidates sel' rest

/-- The normalized date used by the final sort: `getImageDate(a) ?? ""`. -/
def dateKey (img : ProcoreImage) : String := (getImageDate img).getD ""

/-- The final comparator as "compare ≤ 0": normalized date ascending
(`localeCompare`), ties by `a.id - b.id`. -/
def finalLe (a b : ProcoreImage) : Bool :=
  if dateKey a == dateKey b then decide (a.id ≤ b.id)
  else strLtb (dateKey a) (dateKey b)

def finalR (a b : ProcoreImage) : Prop := finalLe a b = true

instance : DecidableRel finalR := fun a b => inferInstanceAs (Decidable (finalLe a b = true))

/-- `finalizeSelection`: the selected values in insertion order, sorted by
normalized date then id. -/
def finalizeSelection (sel : List ProcoreImage) : List ProcoreImage :=
  List.insertionSort finalR sel

/-- The selection `selectCandidateImagesForMonth` accumulates before its
final sort.  Every exit of the source function applies `finalizeSelection`
to the current `selectedById` map, so the function factors as
`finalizeSelection ∘ selectCore` (plus the empty-pool early return). -/
def selectCore (images : List ProcoreImage) (photoDays : List PhotoDaySuggestion)
    (maxCandidates minCandidates : Nat) : List ProcoreImage :=
  let byDate := groupImagesByDate images
  let sortedPhotoDays := List.insertionSort suggR photoDays
  match pass1 maxCandidates byDate [] sortedPhotoDays with
  | (sel, true) => sel
  | (sel, false) =>
      if sel.length < minCandidates then
        let remaining := images.filter (fun img => !selHas sel img.id)
        let sortedRemaining := List.insertionSort pass2R remaining
        fillRemaining maxCandidates sel sortedRemaining
      else sel

/-- `selectCandidateImagesForMonth`.  `optMax`/`optMin` model the optional
`options` fields; `?? DEFAULT` is `Option.getD`. -/
def selectCandidateImagesForMonth (images : List ProcoreImage)
    (photoDays : List PhotoDaySuggestion) (optMax optMin : Option Nat) :
    List ProcoreImage :=
  let maxCandidates := optMax.getD DEFAULT_MAX_CANDIDATES
  let minCandidates := optMin.getD DEFAULT_MIN_CANDIDATES
  if images.length = 0 then []
  else finalizeSelection (selectCore images photoDays maxCandidates minCandidates)

/-! ## `src/reportValidation.ts` -/

/-- The fields of `DailyLogNote` the core reads (only the count matters to
validation). -/
structure DailyLogNote where
  id : Int
  comment : String
  deriving Repr, DecidableEq

def MIN_NOTES_COUNT : Nat := 4
def MIN_PHOTOS_COUNT : Nat := 5

structure ValidationResult where
  valid : Bool
  error : Option String
  notesCount : Nat
  photosCount : Nat
  deriving Repr, DecidableEq

/-- The template string of the notes-threshold violation. -/
def insufficientNotesMessage (notesCount : Nat) : String :=
  "Insufficient daily log data (found " ++ toString notesCount ++ " notes, minimum "
    ++ toString MIN_NOTES_COUNT ++ " required). Suggest manually creating report."

/-- The template string of the photos-threshold violation. -/
def insufficientPhotosMessage (photosCount : Nat) : String :=
  "Insufficient photos (found " ++ toString photosCount ++ " photos, minimum "
    ++ toString MIN_PHOTOS_COUNT ++ " required). Suggest manually creating report."

/-- `validateReportData`. -/
def validateReportData (notes : List DailyLogNote) (images : List ProcoreImage) :
    ValidationResult :=
  let notesCount := notes.length
  let photosCount := images.length
  if notesCount < MIN_NOTES_COUNT then
    { valid := false, error := some (insufficientNotesMessage notesCount),
      notesCount := notesCount, photosCount := photosCount }
  else if photosCount < MIN_PHOTOS_COUNT then
    { valid := false, error := some (insufficientPhotosMessage photosCount),
      notesCount := notesCount, photosCount := photosCount }
  else
    { valid := true, error := none, notesCount := notesCount, photosCount := photosCount }

/-! ## `src/pipeline/generateReport.ts`

The pipeline stages call external collaborators; each collaborator's
behaviour on this run is a field of `Collaborators` — either the value it
returns or the message of the error it throws.  The rendering tail of the
pipeline (steps 7–11: spec building, downloads, captions, slides,
assembly), none of which can throw a `ValidationError`, is collapsed into
the single field `render`, whose success value is the produced
`(pptxPath, pptxFilename)`.  `generateReportTry` is the body of the `try`
block and records every collaborator invocation in an ordered trace;
`generateReportModel` adds the `catch` that converts the thrown error into
a `ReportGenerationResult`. -/

/-- JS truthiness of a `string | undefined` value (`undefined` and `""`
are falsy). -/
def jsTruthyStr (o : Option String) : Bool :=
  match o with
  | none => false
  | some s => s ≠ ""

structure NotesSummaryResult where
  summaryBullets : List String
  photoDays : List PhotoDaySuggestion
  deriving Repr, DecidableEq

inductive PipeError
  | validation (msg : String)
  | other (msg : String)
  deriving Repr, DecidableEq

structure Collaborators where
  fetchNotes : Except String (List DailyLogNote)
  fetchImages : Except String (List ProcoreImage)
  summarize : Except String NotesSummaryResult
  selectImages : Except String (List Int)
  render : Except String (String × String)
  deriving Repr

structure ReportGenerationResult where
  success : Bool
  pptxPath : Option String
  pptxFilename : Option String
  notesCount : Nat
  photosCount : Nat
  error : Option String
  deriving Repr, DecidableEq

/-- The `try` block of `generateReport`, paired with the ordered list of
collaborator invocations it performed.  A thrown collaborator error is
`PipeError.other`; a failed validation throws `PipeError.validation`. -/
def generateReportTry (maxCandidates : Nat) (c : Collaborators) :
    Except PipeError (ReportGenerationResult) × List String :=
  match c.fetchNotes with
  | .error m => (.error (.other m), ["getDailyNotesForMonth"])
  | .ok notes =>
    match c.fetchImages with
    | .error m => (.error (.other m), ["getDailyNotesForMonth", "getImagesForMonth"])
    | .ok images =>
      let validation := validateReportData notes images
      let calls0 := ["getDailyNotesForMonth", "getImagesForMonth", "validateReportData"]
      if validation.valid = false ∧ jsTruthyStr validation.error then
        (.error (.validation (validation.error.getD "")), calls0)
      else
        match c.summarize with
        | .error m => (.error (.other m), calls0 ++ ["summarizeDailyNotesWithPhotoDays"])
        | .ok summary =>
          let calls1 := calls0 ++ ["summarizeDailyNotesWithPhotoDays"]
          let candidates :=
            selectCandidateImagesForMonth images summary.photoDays (some maxCandidates) (some 20)
          let _ := candidates
          match c.selectImages with
          | .error m => (.error (.other m), calls1 ++ ["selectImagesFromMetadata"])
          | .ok _selectedIds =>
            let calls2 := calls1 ++ ["selectImagesFromMetadata"]
            match c.render with
            | .error m => (.error (.other m), calls2 ++ ["renderAndAssemble"])
            | .ok pptx =>
                (.ok { success := true, pptxPath := some pptx.1,
                       pptxFilename := some pptx.2,
                       notesCount := validation.notesCount,
                       photosCount := validation.photosCount, error := none },
                 calls2 ++ ["renderAndAssemble"])

/-- `generateReport`'s `catch`: a `ValidationError`'s message is kept
verbatim in `result.error`, any other error is prefixed with
`"Report generation failed: "`; either way a plain failure record is
returned — the thrown error's class does not survive this boundary. -/
def generateReportModel (maxCandidates : Nat) (c : Collaborators) :
    ReportGenerationResult × List String :=
  match generateReportTry maxCandidates c with
  | (.ok r, calls) => (r, calls)
  | (.error (.validation m), calls) =>
      ({ success := false, pptxPath := none, pptxFilename := none,
         notesCount := 0, photosCount := 0, error := some m }, calls)
  | (.error (.other m), calls) =>
      ({ success := false, pptxPath := none, pptxFilename := none,
         notesCount := 0, photosCount := 0,
         error := some ("Report generation failed: " ++ m) }, calls)

/-! ## `src/worker/reportWorker.ts` -/

inductive JobStatus
  | pending
  | processing
  | completed
  | failed
  deriving Repr, DecidableEq

/-- An `owner_reports` row joined with the linked job's
`procore_project_id`.  Timestamps are abstract instants ordered as the
ISO strings the code compares are. -/
structure OwnerReport where
  id : Nat
  status : JobStatus
  created_at : Nat
  started_at : Option Nat
  completed_at : Option Nat
  updated_at : Nat
  pptx_path : Option String
  error_message : Option String
  procore_project_id : Option Int
  deriving Repr, DecidableEq

/-- The rows the `status = "pending"` filter returns, in store order. -/
def pendingJobs (store : List OwnerReport) : List OwnerReport :=
  store.filter (fun r => r.status == .pending)

def pollLe (a b : OwnerReport) : Prop := a.created_at ≤ b.created_at

instance : DecidableRel pollLe := fun a b => inferInstanceAs (Decidable (a.created_at ≤ b.created_at))

/-- `pollForPendingJob`: the first row of the pending rows ordered by
`created_at` ascending (`limit 1`/`single`; zero rows is `null`, not an
error).  The database's order among equal timestamps is unspecified; the
stable sort leaves such rows in store order. -/
def pollForPendingJob (store : List OwnerReport) : Option OwnerReport :=
  (List.insertionSort pollLe (pendingJobs store)).head?

/-- `markJobProcessing`: an unconditional `update ... eq("id", jobId)` —
there is no `status = "pending"` guard, and updating an already-claimed row
succeeds silently. -/
def markJobProcessing (store : List OwnerReport) (jobId : Nat) (now : Nat) :
    List OwnerReport :=
  store.map (fun r =>
    if r.id == jobId then
      { r with status := .processing, started_at := some now, updated_at := now }
    else r)

/-- The claim step a single worker performs on the happy path: poll, then
mark the polled row processing. -/
def claimNextPending (store : List OwnerReport) (now : Nat) :
    Option OwnerReport × List OwnerReport :=
  match pollForPendingJob store with
  | none => (none, store)
  | some j => (some j, markJobProcessing store j.id now)

/-- Two workers interleaved against one store: both poll before either
marks, then both mark — every step is an individually atomic database
call, and this ordering of the four calls is one of the possible
schedules. -/
def twoWorkerInterleavedClaim (store : List OwnerReport) (t1 t2 : Nat) :
    (Option OwnerReport × Option OwnerReport) × List OwnerReport :=
  let r1 := pollForPendingJob store
  let r2 := pollForPendingJob store
  let s1 := match r1 with
    | some j => markJobProcessing store j.id t1
    | none => store
  let s2 := match r2 with
    | some j => markJobProcessing s1 j.id t2
    | none => s1
  ((r1, r2), s2)

/-- The store writes `processJob` can perform. -/
inductive StoreWrite
  | markProcessing (id : Nat)
  | markCompleted (id : Nat) (path : String)
  | markFailed (id : Nat) (msg : String)
  deriving Repr, DecidableEq

/-- What `processJob` throws internally: `uploadToStorage` and the
re-throw of a failed `generateReport` result both construct a plain
`Error`; only a genuine `ValidationError` instance would take the first
constructor — and nothing in `processJob`'s `try` block produces one. -/
inductive WorkerThrown
  | validationError (msg : String)
  | plainError (msg : String)
  deriving Repr, DecidableEq

def GENERIC_FAILURE_MSG : String :=
  "Report generation unable to complete. Suggest manually creating report."

def NOT_LINKED_MSG : String :=
  "Job is not linked to a Procore project. Link a Procore project to generate reports."

/-- `processJob`'s `catch`: a `ValidationError` instance keeps its message,
anything else becomes the generic message; one `markJobFailed` write. -/
def catchWrites (reportId : Nat) (e : WorkerThrown) : List StoreWrite :=
  match e with
  | .validationError m => [.markFailed reportId m]
  | .plainError _ => [.markFailed reportId GENERIC_FAILURE_MSG]

/-- `result.error || "Report generation failed"` (JS `||`: `undefined` and
`""` are both falsy). -/
def jsOrDefault (o : Option String) (dflt : String) : String :=
  match o with
  | none => dflt
  | some s => if s = "" then dflt else s

/-- The sequence of job-store writes `processJob` performs, as a function
of the job's linkage, what the pipeline run does (`c`), and what
`uploadToStorage` does (`upload`: the storage path returned, or the
message of the error thrown). -/
def processJobWrites (reportId : Nat) (procoreProjectId : Option Int)
    (c : Collaborators) (upload : Except String String) : List StoreWrite :=
  match procoreProjectId with
  | none => [.markFailed reportId NOT_LINKED_MSG]
  | some _ =>
      let result := (generateReportModel DEFAULT_MAX_CANDIDATES c).1
      .markProcessing reportId ::
        (if !result.success || result.pptxPath.isNone || result.pptxFilename.isNone then
          catchWrites reportId (.plainError (jsOrDefault result.error "Report generation failed"))
        else
          match upload with
          | .error m => catchWrites reportId (.plainError m)
          | .ok storagePath => [.markCompleted reportId storagePath])

/-! ### `cleanupExpiredReports` -/

/-- The retention query's row filter: `status = completed`, `pptx_path`
non-null, `completed_at < cutoff` (strict; a SQL `NULL` comparison never
matches). -/
def isExpiredCompleted (cutoff : Nat) (r : OwnerReport) : Bool :=
  r.status == .completed && r.pptx_path.isSome &&
    (match r.completed_at with
     | some t => decide (t < cutoff)
     | none => false)

/-- `listExpiredCompleted`. -/
def listExpiredCompleted (store : List OwnerReport) (cutoff : Nat) : List OwnerReport :=
  store.filter (isExpiredCompleted cutoff)

/-- `clearArtifactPath`: null the path, touch `updated_at`, status kept. -/
def clearArtifactPath (store : List OwnerReport) (jobId : Nat) (now : Nat) :
    List OwnerReport :=
  store.map (fun r =>
    if r.id == jobId then { r with pptx_path := none, updated_at := now } else r)

/-- `cleanupExpiredReports`: for each fetched row, delete from storage
(`deleteFails p = true` models a failed or throwing `storage.remove`, which
is logged and `continue`s), and only on success clear the path.  The
database update itself is modelled as succeeding. -/
def cleanupExpiredReports (store : List OwnerReport) (cutoff : Nat)
    (deleteFails : String → Bool) (now : Nat) : List OwnerReport :=
  (listExpiredCompleted store cutoff).foldl
    (fun acc r =>
      match r.pptx_path with
      | some p => if deleteFails p then acc else clearArtifactPath acc r.id now
      | none => clearArtifactPath acc r.id now)
    store

/-- Spec-side description of the sweep's effect on one row, for comparison
with `cleanupExpiredReports`: exactly the expired completed rows whose
artifact deletion succeeded have their path cleared and `updated_at`
touched; every other row is untouched. -/
def sweepSpec (cutoff : Nat) (deleteFails : String → Bool) (now : Nat)
    (r : OwnerReport) : OwnerReport :=
  if isExpiredCompleted cutoff r then
    match r.pptx_path with
    | some p => if deleteFails p then r else { r with pptx_path := none, updated_at := now }
    | none => r
  else r

/-! ## Order-theoretic facts about the embedded comparators -/

theorem lexLt_irrefl : ∀ (as : List Char), lexLt as as = false := by
  intro as
  induction as with
  | nil => rfl
  | cons a as ih => simp [lexLt, lt_irrefl, ih]

theorem lexLt_trans : ∀ (as bs cs : List Char),
    lexLt as bs = true → lexLt bs cs = true → lexLt as cs = true := by
  intro as
  induction as with
  | nil =>
    intro bs cs h1 h2
    cases bs <;> cases cs <;> simp_all [lexLt]
  | cons a as ih =>
    intro bs cs h1 h2
    cases bs with
    | nil => simp [lexLt] at h1
    | cons b bs =>
      cases cs with
      | nil => simp [lexLt] at h2
      | cons c cs =>
        simp only [lexLt] at h1 h2 ⊢
        rcases lt_trichotomy a b with hab | hab | hab
        · rcases lt_trichotomy b c with hbc | hbc | hbc
          · simp [lt_trans hab hbc]
          · subst hbc; simp [hab]
          · simp [hbc, lt_asymm hbc] at h2
        · subst hab
          rcases lt_trichotomy a c with hac | hac | hac
          · simp [hac]
          · subst hac
            simp only [lt_irrefl, if_false] at h1 h2 ⊢
            exact ih _ _ h1 h2
          · simp [hac, lt_asymm hac] at h2
        · simp [hab, lt_asymm hab] at h1

theorem lexLt_trichotomy : ∀ (as bs : List Char),
    lexLt as bs = true ∨ as = bs ∨ lexLt bs as = true := by
  intro as
  induction as with
  | nil => intro bs; cases bs <;> simp [lexLt]
  | cons a as ih =>
    intro bs
    cases bs with
    | nil => simp [lexLt]
    | cons b bs =>
      rcases lt_trichotomy a b with h | h | h
      · exact Or.inl (by simp [lexLt, h])
      · subst h
        rcases ih bs with h2 | h2 | h2
        · exact Or.inl (by simp [lexLt, lt_irrefl, h2])
        · exact Or.inr (Or.inl (by rw [h2]))
        · exact Or.inr (Or.inr (by simp [lexLt, lt_irrefl, h2]))
      · exact Or.inr (Or.inr (by simp [lexLt, h, lt_asymm h]))

theorem str_eq_of_data_eq {a b : String} (h : a.data = b.data) : a = b := by
  cases a; cases b; exact congrArg String.mk h

theorem strLtb_irrefl (a : String) : strLtb a a = false := lexLt_irrefl a.data

theorem strLtb_trans {a b c : String} (h1 : strLtb a b = true) (h2 : strLtb b c = true) :
    strLtb a c = true := lexLt_trans a.data b.data c.data h1 h2

theorem strLtb_trichotomy (a b : String) :
    strLtb a b = true ∨ a = b ∨ strLtb b a = true := by
  rcases lexLt_trichotomy a.data b.data with h | h | h
  · exact Or.inl h
  · exact Or.inr (Or.inl (str_eq_of_data_eq h))
  · exact Or.inr (Or.inr h)

theorem strLtb_ne {a b : String} (h : strLtb a b = true) : a ≠ b := by
  intro he
  subst he
  rw [strLtb_irrefl] at h
  exact Bool.false_ne_true h

theorem suggLe_iff (a b : PhotoDaySuggestion) :
    suggLe a b = true ↔
      (a.priority.getD 999 < b.priority.getD 999 ∨
        (a.priority.getD 999 = b.priority.getD 999 ∧
          (strLtb a.date b.date = true ∨ a.date = b.date))) := by
  by_cases h : a.priority.getD 999 = b.priority.getD 999 <;>
    simp [suggLe, h]

instance : IsTotal PhotoDaySuggestion suggR where
  total := by
    intro a b
    simp only [suggR, suggLe_iff]
    rcases lt_trichotomy (a.priority.getD 999) (b.priority.getD 999) with h | h | h
    · exact Or.inl (Or.inl h)
    · rcases strLtb_trichotomy a.date b.date with ht | ht | ht
      · exact Or.inl (Or.inr ⟨h, Or.inl ht⟩)
      · exact Or.inl (Or.inr ⟨h, Or.inr ht⟩)
      · exact Or.inr (Or.inr ⟨h.symm, Or.inl ht⟩)
    · exact Or.inr (Or.inl h)

instance : IsTrans PhotoDaySuggestion suggR where
  trans := by
    intro a b c h1 h2
    simp only [suggR, suggLe_iff] at h1 h2 ⊢
    rcases h1 with h1 | ⟨he1, hs1⟩
    · rcases h2 with h2 | ⟨he2, hs2⟩
      · exact Or.inl (lt_trans h1 h2)
      · exact Or.inl (he2 ▸ h1)
    · rcases h2 with h2 | ⟨he2, hs2⟩
      · exact Or.inl (he1 ▸ h2)
      · refine Or.inr ⟨he1.trans he2, ?_⟩
        rcases hs1 with hs1 | hs1 <;> rcases hs2 with hs2 | hs2
        · exact Or.inl (strLtb_trans hs1 hs2)
        · exact Or.inl (by rw [← hs2]; exact hs1)
        · exact Or.inl (by rw [hs1]; exact hs2)
        · exact Or.inr (hs1.trans hs2)

theorem pass2Le_iff (a b : ProcoreImage) :
    pass2Le a b = true ↔
      ((hasDesc a = true ∧ hasDesc b = false) ∨
        (hasDesc a = hasDesc b ∧ b.size.getD 0 ≤ a.size.getD 0)) := by
  cases ha : hasDesc a <;> cases hb : hasDesc b <;> simp [pass2Le, ha, hb]

instance : IsTotal ProcoreImage pass2R where
  total := by
    intro a b
    simp only [pass2R, pass2Le_iff]
    cases ha : hasDesc a <;> cases hb : hasDesc b <;> simp [ha, hb] <;> omega

instance : IsTrans ProcoreImage pass2R where
  trans := by
    intro a b c h1 h2
    simp only [pass2R, pass2Le_iff] at h1 h2 ⊢
    cases ha : hasDesc a <;> cases hb : hasDesc b <;> cases hc : hasDesc c <;>
      simp_all <;> omega

theorem finalLe_iff (a b : ProcoreImage) :
    finalLe a b = true ↔
      ((dateKey a = dateKey b ∧ a.id ≤ b.id) ∨
        (dateKey a ≠ dateKey b ∧ strLtb (dateKey a) (dateKey b) = true)) := by
  by_cases h : dateKey a = dateKey b <;> simp [finalLe, h]

instance : IsTotal ProcoreImage finalR where
  total := by
    intro a b
    simp only [finalR, finalLe_iff]
    rcases strLtb_trichotomy (dateKey a) (dateKey b) with ht | ht | ht
    · exact Or.inl (Or.inr ⟨strLtb_ne ht, ht⟩)
    · rcases Int.le_total a.id b.id with hi | hi
      · exact Or.inl (Or.inl ⟨ht, hi⟩)
      · exact Or.inr (Or.inl ⟨ht.symm, hi⟩)
    · exact Or.inr (Or.inr ⟨strLtb_ne ht, ht⟩)

instance : IsTrans ProcoreImage finalR where
  trans := by
    intro a b c h1 h2
    simp only [finalR, finalLe_iff] at h1 h2 ⊢
    rcases h1 with ⟨he1, hi1⟩ | ⟨hn1, hs1⟩
    · rcases h2 with ⟨he2, hi2⟩ | ⟨hn2, hs2⟩
      · exact Or.inl ⟨he1.trans he2, le_trans hi1 hi2⟩
      · refine Or.inr ⟨?_, ?_⟩
        · rw [he1]; exact hn2
        · rw [he1]; exact hs2
    · rcases h2 with ⟨he2, hi2⟩ | ⟨hn2, hs2⟩
      · refine Or.inr ⟨?_, ?_⟩
        · rw [← he2]; exact hn1
        · rw [← he2]; exact hs1
      · have hs := strLtb_trans hs1 hs2
        exact Or.inr ⟨strLtb_ne hs, hs⟩

instance : IsTotal OwnerReport pollLe where
  total := by intro a b; exact Nat.le_total a.created_at b.created_at

instance : IsTrans OwnerReport pollLe where
  trans := by intro a b c h1 h2; exact Nat.le_trans h1 h2

/-! ## The grouped map reads back as a filter of the pool -/

theorem find?_map_keepKeys (u : String × List ProcoreImage → String × List ProcoreImage)
    (hu : ∀ p, (u p).1 = p.1) (d : String) :
    ∀ (m : List (String × List ProcoreImage)),
      (m.map u).find? (fun p => p.1 == d) = (m.find? (fun p => p.1 == d)).map u := by
  intro m
  induction m with
  | nil => rfl
  | cons p ps ih =>
    simp only [List.map_cons, List.find?_cons]
    rw [hu p]
    cases h : (p.1 == d) with
    | true => rfl
    | false => exact ih

theorem byDateGet_addToGroup (m : List (String × List ProcoreImage)) (d0 d : String)
    (img : ProcoreImage) :
    byDateGet (addToGroup m d0 img) d =
      byDateGet m d ++ (if d0 = d then [img] else []) := by
  unfold addToGroup
  cases hany : m.any (fun p => p.1 == d0) with
  | true =>
    simp only [if_pos]
    unfold byDateGet
    rw [find?_map_keepKeys (fun p => if p.1 == d0 then (p.1, p.2 ++ [img]) else p)
      (by intro p; by_cases h : p.1 == d0 <;> simp [h]) d m]
    by_cases hd : d0 = d
    · subst hd
      have hex : ∃ p ∈ m, (p.1 == d0) = true := List.any_eq_true.mp hany
      cases hf : m.find? (fun p => p.1 == d0) with
      | none =>
        obtain ⟨p, hp, hpd⟩ := hex
        have := List.find?_eq_none.mp hf p hp
        simp [hpd] at this
      | some q =>
        have hq := List.find?_some hf
        simp only [beq_iff_eq] at hq
        simp [hq]
    · have hd' : (d0 == d) = false := by simpa using hd
      cases hf : m.find? (fun p => p.1 == d) with
      | none => simp [hd]
      | some q =>
        have hq := List.find?_some hf
        have hqd : q.1 = d := by simpa using hq
        have hq0 : ¬ q.1 = d0 := by rw [hqd]; exact fun e => hd e.symm
        simp [hd, hq0]
  | false =>
    simp only [if_neg, Bool.false_eq_true, not_false_eq_true]
    unfold byDateGet
    rw [List.find?_append]
    by_cases hd : d0 = d
    · subst hd
      have hnone : m.find? (fun p => p.1 == d0) = none := by
        cases hf : m.find? (fun p => p.1 == d0) with
        | none => rfl
        | some q =>
          have hq := List.find?_some hf
          have hmem := List.mem_of_find?_eq_some hf
          have : m.any (fun p => p.1 == d0) = true := List.any_eq_true.mpr ⟨q, hmem, hq⟩
          rw [this] at hany
          exact absurd hany (by simp)
      simp [hnone, List.find?]
    · have hd' : (d0 == d) = false := by simpa using hd
      cases hf : m.find? (fun p => p.1 == d) with
      | none => simp [hf, List.find?, hd', hd]
      | some q => simp [hf, hd]

theorem byDateGet_foldl_groupStep :
    ∀ (images : List ProcoreImage) (acc : List (String × List ProcoreImage)) (d : String),
      byDateGet (images.foldl groupStep acc) d =
        byDateGet acc d ++ images.filter (fun img => getImageDate img == some d) := by
  intro images
  induction images with
  | nil => intro acc d; simp
  | cons img rest ih =>
    intro acc d
    rw [List.foldl_cons, ih]
    unfold groupStep
    cases hgd : getImageDate img with
    | none =>
      have : (getImageDate img == some d) = false := by simp [hgd]
      simp [List.filter_cons, this]
    | some d0 =>
      rw [byDateGet_addToGroup]
      by_cases hd : d0 = d
      · subst hd
        have : (getImageDate img == some d0) = true := by simp [hgd]
        simp [List.filter_cons, this]
      · have : (getImageDate img == some d) = false := by simp [hgd, hd]
        simp [List.filter_cons, this, hd]

/-- `byDate.get(d)` is exactly the pool images whose normalized date is
`d`, in pool order. -/
theorem byDateGet_groupImagesByDate (images : List ProcoreImage) (d : String) :
    byDateGet (groupImagesByDate images) d =
      images.filter (fun img => getImageDate img == some d) := by
  unfold groupImagesByDate
  rw [byDateGet_foldl_groupStep]
  simp [byDateGet, List.find?]

theorem mem_byDateGet_group {images : List ProcoreImage} {d : String} {x : ProcoreImage}
    (h : x ∈ byDateGet (groupImagesByDate images) d) :
    x ∈ images ∧ getImageDate x = some d := by
  rw [byDateGet_groupImagesByDate] at h
  have := List.mem_filter.mp h
  refine ⟨this.1, ?_⟩
  simpa using this.2

/-! ## Invariants of the selection state -/

theorem selHas_iff (sel : List ProcoreImage) (i : Int) :
    selHas sel i = true ↔ i ∈ sel.map (fun x => x.id) := by
  simp only [selHas, List.any_eq_true, List.mem_map, beq_iff_eq]

theorem selHas_append (sel : List ProcoreImage) (img : ProcoreImage) (i : Int) :
    selHas (sel ++ [img]) i = (selHas sel i || (img.id == i)) := by
  simp [selHas, List.any_append]

theorem mem_mapSet {sel : List ProcoreImage} {img x : ProcoreImage}
    (h : x ∈ mapSet sel img) : x ∈ sel ∨ x = img := by
  unfold mapSet at h
  by_cases hs : selHas sel img.id = true
  · rw [if_pos hs] at h
    obtain ⟨y, hy, he⟩ := List.mem_map.mp h
    by_cases hid : y.id = img.id
    · rw [if_pos (by simpa using hid)] at he
      exact Or.inr he.symm
    · rw [if_neg (by simpa using hid)] at he
      exact Or.inl (he ▸ hy)
  · rw [if_neg hs] at h
    rcases List.mem_append.mp h with h | h
    · exact Or.inl h
    · exact Or.inr (by simpa using h)

theorem mapSet_map_id (sel : List ProcoreImage) (img : ProcoreImage) :
    (mapSet sel img).map (fun x => x.id) =
      if selHas sel img.id = true then sel.map (fun x => x.id)
      else sel.map (fun x => x.id) ++ [img.id] := by
  unfold mapSet
  by_cases hs : selHas sel img.id = true
  · rw [if_pos hs, if_pos hs, List.map_map]
    apply List.map_congr_left
    intro x hx
    by_cases hid : x.id = img.id
    · simp [Function.comp, hid]
    · simp [Function.comp, hid]
  · rw [if_neg hs, if_neg hs]
    simp

theorem mapSet_nodup {sel : List ProcoreImage} {img : ProcoreImage}
    (h : (sel.map (fun x => x.id)).Nodup) :
    ((mapSet sel img).map (fun x => x.id)).Nodup := by
  rw [mapSet_map_id]
  by_cases hs : selHas sel img.id = true
  · rwa [if_pos hs]
  · rw [if_neg hs]
    have hnm : img.id ∉ sel.map (fun x => x.id) := fun hm => hs ((selHas_iff sel img.id).mpr hm)
    simp [List.nodup_append, h, hnm]

theorem mapSet_length (sel : List ProcoreImage) (img : ProcoreImage) :
    (mapSet sel img).length =
      if selHas sel img.id = true then sel.length else sel.length + 1 := by
  unfold mapSet
  by_cases hs : selHas sel img.id = true
  · simp [hs]
  · simp [hs]

theorem addGroup_mem : ∀ (g sel : List ProcoreImage) (maxC : Nat) {x : ProcoreImage},
    x ∈ (addGroup maxC sel g).1 → x ∈ sel ∨ x ∈ g := by
  intro g
  induction g with
  | nil => intro sel maxC x h; exact Or.inl h
  | cons img rest ih =>
    intro sel maxC x h
    rw [addGroup] at h
    by_cases hs : selHas sel img.id = true
    · rw [if_pos hs] at h
      rcases ih sel maxC h with h | h
      · exact Or.inl h
      · exact Or.inr (List.mem_cons_of_mem _ h)
    · rw [if_neg hs] at h
      by_cases hm : maxC ≤ (sel ++ [img]).length
      · rw [if_pos hm] at h
        rcases List.mem_append.mp h with h | h
        · exact Or.inl h
        · exact Or.inr (List.mem_cons.mpr (Or.inl (by simpa using h)))
      · rw [if_neg hm] at h
        rcases ih (sel ++ [img]) maxC h with h | h
        · rcases List.mem_append.mp h with h | h
          · exact Or.inl h
          · exact Or.inr (List.mem_cons.mpr (Or.inl (by simpa using h)))
        · exact Or.inr (List.mem_cons_of_mem _ h)

theorem addGroup_nodup : ∀ (g sel : List ProcoreImage) (maxC : Nat),
    (sel.map (fun x => x.id)).Nodup →
    ((addGroup maxC sel g).1.map (fun x => x.id)).Nodup := by
  intro g
  induction g with
  | nil => intro sel maxC h; exact h
  | cons img rest ih =>
    intro sel maxC h
    rw [addGroup]
    by_cases hs : selHas sel img.id = true
    · rw [if_pos hs]
      exact ih sel maxC h
    · rw [if_neg hs]
      have hnm : img.id ∉ sel.map (fun x => x.id) :=
        fun hm => hs ((selHas_iff sel img.id).mpr hm)
      have happ : ((sel ++ [img]).map (fun x => x.id)).Nodup := by
        simp [List.nodup_append, h, hnm]
      by_cases hm : maxC ≤ (sel ++ [img]).length
      · rw [if_pos hm]
        exact happ
      · rw [if_neg hm]
        exact ih (sel ++ [img]) maxC happ

theorem addGroup_length : ∀ (g sel : List ProcoreImage) (maxC : Nat),
    sel.length < maxC →
      (((addGroup maxC sel g).2 = true → (addGroup maxC sel g).1.length = maxC) ∧
       ((addGroup maxC sel g).2 = false → (addGroup maxC sel g).1.length < maxC)) := by
  intro g
  induction g with
  | nil =>
    intro sel maxC hlt
    constructor
    · intro h; exact absurd h (by simp [addGroup])
    · intro _; exact hlt
  | cons img rest ih =>
    intro sel maxC hlt
    rw [addGroup]
    by_cases hs : selHas sel img.id = true
    · rw [if_pos hs]
      exact ih sel maxC hlt
    · rw [if_neg hs]
      by_cases hm : maxC ≤ (sel ++ [img]).length
      · rw [if_pos hm]
        constructor
        · intro _
          simp only [List.length_append, List.length_cons, List.length_nil]
          simp only [List.length_append, List.length_cons, List.length_nil] at hm
          omega
        · intro h; exact absurd h (by simp)
      · rw [if_neg hm]
        have hlt2 : (sel ++ [img]).length < maxC := by
          simp only [List.length_append, List.length_cons, List.length_nil] at hm ⊢
          omega
        exact ih (sel ++ [img]) maxC hlt2

theorem addDates_mem : ∀ (ds : List String) (sel : List ProcoreImage) (maxC : Nat)
    (m : List (String × List ProcoreImage)) {x : ProcoreImage},
    x ∈ (addDates maxC m sel ds).1 → x ∈ sel ∨ ∃ d ∈ ds, x ∈ byDateGet m d := by
  intro ds
  induction ds with
  | nil => intro sel maxC m x h; exact Or.inl h
  | cons d rest ih =>
    intro sel maxC m x h
    rw [addDates] at h
    rcases hag : addGroup maxC sel (byDateGet m d) with ⟨sel', flag⟩
    rw [hag] at h
    have hmem : ∀ {y : ProcoreImage}, y ∈ sel' → y ∈ sel ∨ y ∈ byDateGet m d := by
      intro y hy
      exact addGroup_mem (byDateGet m d) sel maxC (by rw [hag]; exact hy)
    cases flag with
    | true =>
      simp only at h
      rcases hmem h with h | h
      · exact Or.inl h
      · exact Or.inr ⟨d, List.mem_cons_self d rest, h⟩
    | false =>
      simp only at h
      rcases ih sel' maxC m h with h | ⟨d2, hd2, hx⟩
      · rcases hmem h with h | h
        · exact Or.inl h
        · exact Or.inr ⟨d, List.mem_cons_self d rest, h⟩
      · exact Or.inr ⟨d2, List.mem_cons_of_mem _ hd2, hx⟩

theorem addDates_nodup : ∀ (ds : List String) (sel : List ProcoreImage) (maxC : Nat)
    (m : List (String × List ProcoreImage)),
    (sel.map (fun x => x.id)).Nodup →
    ((addDates maxC m sel ds).1.map (fun x => x.id)).Nodup := by
  intro ds
  induction ds with
  | nil => intro sel maxC m h; exact h
  | cons d rest ih =>
    intro sel maxC m h
    rw [addDates]
    rcases hag : addGroup maxC sel (byDateGet m d) with ⟨sel', flag⟩
    have hnd : (sel'.map (fun x => x.id)).Nodup := by
      have := addGroup_nodup (byDateGet m d) sel maxC h
      rwa [hag] at this
    cases flag with
    | true => exact hnd
    | false => exact ih sel' maxC m hnd

theorem addDates_length : ∀ (ds : List String) (sel : List ProcoreImage) (maxC : Nat)
    (m : List (String × List ProcoreImage)),
    sel.length < maxC →
      (((addDates maxC m sel ds).2 = true → (addDates maxC m sel ds).1.length = maxC) ∧
       ((addDates maxC m sel ds).2 = false → (addDates maxC m sel ds).1.length < maxC)) := by
  intro ds
  induction ds with
  | nil =>
    intro sel maxC m hlt
    constructor
    · intro h; exact absurd h (by simp [addDates])
    · intro _; exact hlt
  | cons d rest ih =>
    intro sel maxC m hlt
    rw [addDates]
    rcases hag : addGroup maxC sel (byDateGet m d) with ⟨sel', flag⟩
    have hlen := addGroup_length (byDateGet m d) sel maxC hlt
    rw [hag] at hlen
    cases flag with
    | true =>
      constructor
      · intro _; exact hlen.1 rfl
      · intro h; exact absurd h (by simp)
    | false =>
      exact ih sel' maxC m (hlen.2 rfl)

theorem pass1_mem : ∀ (suggs : List PhotoDaySuggestion) (sel : List ProcoreImage)
    (maxC : Nat) (m : List (String × List ProcoreImage)) {x : ProcoreImage},
    x ∈ (pass1 maxC m sel suggs).1 →
      x ∈ sel ∨ ∃ day ∈ suggs,
        x ∈ byDateGet m day.date ∨ x ∈ byDateGet m (shiftDate day.date (-1)) ∨
          x ∈ byDateGet m (shiftDate day.date 1) := by
  intro suggs
  induction suggs with
  | nil => intro sel maxC m x h; exact Or.inl h
  | cons day rest ih =>
    intro sel maxC m x h
    rw [pass1] at h
    generalize had : addDates maxC m sel
      [day.date, shiftDate day.date (-1), shiftDate day.date 1] = res at h
    obtain ⟨sel', flag⟩ := res
    have hmem : ∀ {y : ProcoreImage}, y ∈ sel' →
        y ∈ sel ∨ ∃ d ∈ [day.date, shiftDate day.date (-1), shiftDate day.date 1],
          y ∈ byDateGet m d := by
      intro y hy
      exact addDates_mem _ sel maxC m (by rw [had]; exact hy)
    have toDisj : ∀ {y : ProcoreImage},
        (∃ d ∈ [day.date, shiftDate day.date (-1), shiftDate day.date 1], y ∈ byDateGet m d) →
        y ∈ byDateGet m day.date ∨ y ∈ byDateGet m (shiftDate day.date (-1)) ∨
          y ∈ byDateGet m (shiftDate day.date 1) := by
      rintro y ⟨d, hd, hy⟩
      simp only [List.mem_cons, List.not_mem_nil, or_false] at hd
      rcases hd with h1 | h1 | h1
      · exact Or.inl (h1 ▸ hy)
      · exact Or.inr (Or.inl (h1 ▸ hy))
      · exact Or.inr (Or.inr (h1 ▸ hy))
    cases flag with
    | true =>
      simp only at h
      rcases hmem h with h | h
      · exact Or.inl h
      · exact Or.inr ⟨day, List.mem_cons_self day rest, toDisj h⟩
    | false =>
      simp only at h
      rcases ih sel' maxC m h with h | ⟨day2, hd2, hx⟩
      · rcases hmem h with h | h
        · exact Or.inl h
        · exact Or.inr ⟨day, List.mem_cons_self day rest, toDisj h⟩
      · exact Or.inr ⟨day2, List.mem_cons_of_mem _ hd2, hx⟩

theorem pass1_nodup : ∀ (suggs : List PhotoDaySuggestion) (sel : List ProcoreImage)
    (maxC : Nat) (m : List (String × List ProcoreImage)),
    (sel.map (fun x => x.id)).Nodup →
    ((pass1 maxC m sel suggs).1.map (fun x => x.id)).Nodup := by
  intro suggs
  induction suggs with
  | nil => intro sel maxC m h; exact h
  | cons day rest ih =>
    intro sel maxC m h
    rw [pass1]
    generalize had : addDates maxC m sel
      [day.date, shiftDate day.date (-1), shiftDate day.date 1] = res
    obtain ⟨sel', flag⟩ := res
    have hnd : (sel'.map (fun x => x.id)).Nodup := by
      have := addDates_nodup [day.date, shiftDate day.date (-1), shiftDate day.date 1]
        sel maxC m h
      rwa [had] at this
    cases flag with
    | true => exact hnd
    | false => exact ih sel' maxC m hnd

theorem pass1_length : ∀ (suggs : List PhotoDaySuggestion) (sel : List ProcoreImage)
    (maxC : Nat) (m : List (String × List ProcoreImage)),
    sel.length < maxC →
      (((pass1 maxC m sel suggs).2 = true → (pass1 maxC m sel suggs).1.length = maxC) ∧
       ((pass1 maxC m sel suggs).2 = false → (pass1 maxC m sel suggs).1.length < maxC)) := by
  intro suggs
  induction suggs with
  | nil =>
    intro sel maxC m hlt
    constructor
    · intro h; exact absurd h (by simp [pass1])
    · intro _; exact hlt
  | cons day rest ih =>
    intro sel maxC m hlt
    rw [pass1]
    generalize had : addDates maxC m sel
      [day.date, shiftDate day.date (-1), shiftDate day.date 1] = res
    obtain ⟨sel', flag⟩ := res
    have hlen := addDates_length [day.date, shiftDate day.date (-1), shiftDate day.date 1]
      sel maxC m hlt
    rw [had] at hlen
    cases flag with
    | true =>
      constructor
      · intro _; exact hlen.1 rfl
      · intro h; exact absurd h (by simp)
    | false =>
      exact ih sel' maxC m (hlen.2 rfl)

theorem fillRemaining_mem : ∀ (rem sel : List ProcoreImage) (maxC : Nat) {x : ProcoreImage},
    x ∈ fillRemaining maxC sel rem → x ∈ sel ∨ x ∈ rem := by
  intro rem
  induction rem with
  | nil => intro sel maxC x h; exact Or.inl h
  | cons img rest ih =>
    intro sel maxC x h
    rw [fillRemaining] at h
    by_cases hm : maxC ≤ (mapSet sel img).length
    · rw [if_pos hm] at h
      rcases mem_mapSet h with h | h
      · exact Or.inl h
      · exact Or.inr (List.mem_cons.mpr (Or.inl h))
    · rw [if_neg hm] at h
      rcases ih (mapSet sel img) maxC h with h | h
      · rcases mem_mapSet h with h | h
        · exact Or.inl h
        · exact Or.inr (List.mem_cons.mpr (Or.inl h))
      · exact Or.inr (List.mem_cons_of_mem _ h)

theorem fillRemaining_nodup : ∀ (rem sel : List ProcoreImage) (maxC : Nat),
    (sel.map (fun x => x.id)).Nodup →
    ((fillRemaining maxC sel rem).map (fun x => x.id)).Nodup := by
  intro rem
  induction rem with
  | nil => intro sel maxC h; exact h
  | cons img rest ih =>
    intro sel maxC h
    rw [fillRemaining]
    by_cases hm : maxC ≤ (mapSet sel img).length
    · rw [if_pos hm]
      exact mapSet_nodup h
    · rw [if_neg hm]
      exact ih (mapSet sel img) maxC (mapSet_nodup h)

theorem fillRemaining_length_le : ∀ (rem sel : List ProcoreImage) (maxC : Nat),
    sel.length < maxC → (fillRemaining maxC sel rem).length ≤ maxC := by
  intro rem
  induction rem with
  | nil => intro sel maxC hlt; exact Nat.le_of_lt hlt
  | cons img rest ih =>
    intro sel maxC hlt
    rw [fillRemaining]
    by_cases hm : maxC ≤ (mapSet sel img).length
    · rw [if_pos hm]
      rw [mapSet_length] at hm ⊢
      by_cases hs : selHas sel img.id = true
      · rw [if_pos hs] at hm ⊢; omega
      · rw [if_neg hs] at hm ⊢; omega
    · rw [if_neg hm]
      apply ih
      rw [mapSet_length]
      rw [mapSet_length] at hm
      by_cases hs : selHas sel img.id = true
      · rw [if_pos hs] at hm ⊢; omega
      · rw [if_neg hs] at hm ⊢; omega

theorem fillRemaining_length_eq : ∀ (rem sel : List ProcoreImage) (maxC : Nat),
    sel.length < maxC →
    (∀ x ∈ rem, selHas sel x.id = false) →
    ((rem.map (fun x => x.id)).Nodup) →
    (fillRemaining maxC sel rem).length = Nat.min maxC (sel.length + rem.length) := by
  intro rem
  induction rem with
  | nil =>
    intro sel maxC hlt _ _
    rw [fillRemaining]
    simp only [List.length_nil, Nat.add_zero, Nat.min_def]
    split_ifs <;> omega
  | cons img rest ih =>
    intro sel maxC hlt hdisj hnd
    have hs : selHas sel img.id = false := hdisj img (List.mem_cons_self img rest)
    have hset : (mapSet sel img).length = sel.length + 1 := by
      rw [mapSet_length, if_neg (by simp [hs])]
    rw [fillRemaining]
    by_cases hm : maxC ≤ (mapSet sel img).length
    · rw [if_pos hm, hset]
      rw [hset] at hm
      simp only [List.length_cons, Nat.min_def]
      split_ifs <;> omega
    · rw [if_neg hm]
      rw [hset] at hm
      have hdisj2 : ∀ x ∈ rest, selHas (mapSet sel img) x.id = false := by
        intro x hx
        have hx1 : selHas sel x.id = false := hdisj x (List.mem_cons_of_mem _ hx)
        have hx2 : img.id ≠ x.id := by
          simp only [List.map_cons, List.nodup_cons, List.mem_map] at hnd
          intro he
          exact hnd.1 ⟨x, hx, he.symm⟩
        unfold mapSet
        rw [if_neg (by simp [hs])]
        rw [selHas_append, hx1]
        simpa using hx2
      have hnd2 : (rest.map (fun x => x.id)).Nodup := by
        simp only [List.map_cons, List.nodup_cons] at hnd
        exact hnd.2
      rw [ih (mapSet sel img) maxC (by omega) hdisj2 hnd2, hset]
      simp only [List.length_cons, Nat.min_def]
      split_ifs <;> omega

/-! ## Properties of the assembled selector -/

theorem finalizeSelection_perm (sel : List ProcoreImage) :
    (finalizeSelection sel).Perm sel :=
  List.perm_insertionSort finalR sel

theorem finalizeSelection_sorted (sel : List ProcoreImage) :
    List.Sorted finalR (finalizeSelection sel) :=
  List.sorted_insertionSort finalR sel

theorem selectCore_mem {images : List ProcoreImage} {suggs : List PhotoDaySuggestion}
    {maxC minC : Nat} {x : ProcoreImage} (h : x ∈ selectCore images suggs maxC minC) :
    x ∈ images := by
  simp only [selectCore] at h
  generalize hp : pass1 maxC (groupImagesByDate images) []
    (List.insertionSort suggR suggs) = res at h
  obtain ⟨sel, flag⟩ := res
  have hselmem : ∀ {y : ProcoreImage}, y ∈ sel → y ∈ images := by
    intro y hy
    have := pass1_mem (List.insertionSort suggR suggs) [] maxC
      (groupImagesByDate images) (by rw [hp]; exact hy)
    rcases this with h0 | ⟨day, _, hd⟩
    · exact absurd h0 (List.not_mem_nil y)
    · rcases hd with hd | hd | hd <;> exact (mem_byDateGet_group hd).1
  cases flag with
  | true => exact hselmem h
  | false =>
    simp only at h
    by_cases hmin : sel.length < minC
    · rw [if_pos hmin] at h
      rcases fillRemaining_mem _ _ _ h with h | h
      · exact hselmem h
      · have h2 := (List.perm_insertionSort pass2R
          (images.filter (fun img => !selHas sel img.id))).mem_iff.mp h
        exact (List.mem_filter.mp h2).1
    · rw [if_neg hmin] at h
      exact hselmem h

theorem selectCore_nodup (images : List ProcoreImage) (suggs : List PhotoDaySuggestion)
    (maxC minC : Nat) :
    ((selectCore images suggs maxC minC).map (fun x => x.id)).Nodup := by
  simp only [selectCore]
  generalize hp : pass1 maxC (groupImagesByDate images) []
    (List.insertionSort suggR suggs) = res
  obtain ⟨sel, flag⟩ := res
  have hselnd : (sel.map (fun x => x.id)).Nodup := by
    have := pass1_nodup (List.insertionSort suggR suggs) [] maxC
      (groupImagesByDate images) (by simp)
    rwa [hp] at this
  cases flag with
  | true => exact hselnd
  | false =>
    simp only
    by_cases hmin : sel.length < minC
    · rw [if_pos hmin]
      exact fillRemaining_nodup _ sel maxC hselnd
    · rw [if_neg hmin]
      exact hselnd

theorem selectCore_length_le (images : List ProcoreImage) (suggs : List PhotoDaySuggestion)
    (maxC minC : Nat) (hmax : 1 ≤ maxC) :
    (selectCore images suggs maxC minC).length ≤ maxC := by
  simp only [selectCore]
  generalize hp : pass1 maxC (groupImagesByDate images) []
    (List.insertionSort suggR suggs) = res
  obtain ⟨sel, flag⟩ := res
  have hlen := pass1_length (List.insertionSort suggR suggs) [] maxC
    (groupImagesByDate images) (by simpa using hmax)
  rw [hp] at hlen
  cases flag with
  | true => exact Nat.le_of_eq (hlen.1 rfl)
  | false =>
    simp only
    have hsel : sel.length < maxC := hlen.2 rfl
    by_cases hmin : sel.length < minC
    · rw [if_pos hmin]
      exact fillRemaining_length_le _ sel maxC hsel
    · rw [if_neg hmin]
      exact Nat.le_of_lt hsel

theorem selectCore_no_suggs_length (images : List ProcoreImage) (maxC minC : Nat)
    (hids : (images.map (fun x => x.id)).Nodup) (hmax : 1 ≤ maxC) (hmin : 1 ≤ minC) :
    (selectCore images [] maxC minC).length = Nat.min maxC images.length := by
  have hred : selectCore images [] maxC minC =
      if ([] : List ProcoreImage).length < minC then
        fillRemaining maxC []
          (List.insertionSort pass2R (images.filter (fun img => !selHas [] img.id)))
      else [] := rfl
  rw [hred, if_pos (by simp only [List.length_nil]; omega)]
  have hrem : images.filter (fun img => !selHas [] img.id) = images := by
    apply List.filter_eq_self.mpr
    intro x _
    rfl
  rw [hrem]
  have hperm := List.perm_insertionSort pass2R images
  have hlen : (List.insertionSort pass2R images).length = images.length := hperm.length_eq
  have hnd : ((List.insertionSort pass2R images).map (fun x => x.id)).Nodup := by
    have hpm := hperm.map (fun x => x.id)
    exact (hpm.nodup_iff).mpr hids
  have hdisj : ∀ x ∈ List.insertionSort pass2R images, selHas [] x.id = false := by
    intro x _
    rfl
  rw [fillRemaining_length_eq _ [] maxC (by simp only [List.length_nil]; omega) hdisj hnd]
  simp [hlen]

theorem select_mem {images : List ProcoreImage} {suggs : List PhotoDaySuggestion}
    {optMax optMin : Option Nat} {x : ProcoreImage}
    (h : x ∈ selectCandidateImagesForMonth images suggs optMax optMin) : x ∈ images := by
  simp only [selectCandidateImagesForMonth] at h
  by_cases he : images.length = 0
  · rw [if_pos he] at h
    exact absurd h (List.not_mem_nil x)
  · rw [if_neg he] at h
    exact selectCore_mem ((finalizeSelection_perm _).mem_iff.mp h)

theorem select_nodup (images : List ProcoreImage) (suggs : List PhotoDaySuggestion)
    (optMax optMin : Option Nat) :
    ((selectCandidateImagesForMonth images suggs optMax optMin).map
      (fun x => x.id)).Nodup := by
  simp only [selectCandidateImagesForMonth]
  by_cases he : images.length = 0
  · rw [if_pos he]
    simp
  · rw [if_neg he]
    have hperm := (finalizeSelection_perm
      (selectCore images suggs (optMax.getD DEFAULT_MAX_CANDIDATES)
        (optMin.getD DEFAULT_MIN_CANDIDATES))).map (fun x => x.id)
    exact hperm.nodup_iff.mpr (selectCore_nodup images suggs _ _)

theorem select_sorted (images : List ProcoreImage) (suggs : List PhotoDaySuggestion)
    (optMax optMin : Option Nat) :
    List.Sorted finalR (selectCandidateImagesForMonth images suggs optMax optMin) := by
  simp only [selectCandidateImagesForMonth]
  by_cases he : images.length = 0
  · rw [if_pos he]
    exact List.sorted_nil
  · rw [if_neg he]
    exact finalizeSelection_sorted _

theorem select_length_le (images : List ProcoreImage) (suggs : List PhotoDaySuggestion)
    (optMax optMin : Option Nat) (hmax : 1 ≤ optMax.getD DEFAULT_MAX_CANDIDATES) :
    (selectCandidateImagesForMonth images suggs optMax optMin).length ≤
      optMax.getD DEFAULT_MAX_CANDIDATES := by
  simp only [selectCandidateImagesForMonth]
  by_cases he : images.length = 0
  · rw [if_pos he]
    simp
  · rw [if_neg he]
    rw [(finalizeSelection_perm _).length_eq]
    exact selectCore_length_le images suggs _ _ hmax

/-! ## The retention sweep as a pointwise map -/

/-- The effect of the sweep iteration for fetched row `r` on an arbitrary
row `y` of the store (proof infrastructure for `cleanupExpiredReports`). -/
def sweepStep (deleteFails : String → Bool) (now : Nat) (r y : OwnerReport) : OwnerReport :=
  match r.pptx_path with
  | some p =>
      if deleteFails p then y
      else if y.id == r.id then { y with pptx_path := none, updated_at := now } else y
  | none => if y.id == r.id then { y with pptx_path := none, updated_at := now } else y

theorem cleanup_step_as_map (deleteFails : String → Bool) (now : Nat) (r : OwnerReport)
    (acc : List OwnerReport) :
    (match r.pptx_path with
     | some p => if deleteFails p then acc else clearArtifactPath acc r.id now
     | none => clearArtifactPath acc r.id now) = acc.map (sweepStep deleteFails now r) := by
  cases hp : r.pptx_path with
  | none =>
    have hs : sweepStep deleteFails now r = fun y =>
        if y.id == r.id then { y with pptx_path := none, updated_at := now } else y := by
      funext y
      unfold sweepStep
      rw [hp]
    rw [hs]
    rfl
  | some p =>
    by_cases hf : deleteFails p = true
    · have hs : sweepStep deleteFails now r = fun y => y := by
        funext y
        unfold sweepStep
        rw [hp]
        simp [hf]
      rw [hs]
      simp [hf]
    · have hs : sweepStep deleteFails now r = fun y =>
          if y.id == r.id then { y with pptx_path := none, updated_at := now } else y := by
        funext y
        unfold sweepStep
        rw [hp]
        simp [hf]
      rw [hs]
      simp [clearArtifactPath, hf]

theorem foldl_map_comm (f : OwnerReport → OwnerReport → OwnerReport) :
    ∀ (rs : List OwnerReport) (acc : List OwnerReport),
      rs.foldl (fun a r => a.map (f r)) acc =
        acc.map (fun x => rs.foldl (fun y r => f r y) x) := by
  intro rs
  induction rs with
  | nil => intro acc; simp
  | cons r rest ih =>
    intro acc
    rw [List.foldl_cons, ih, List.map_map]
    apply List.map_congr_left
    intro x _
    rw [List.foldl_cons]
    rfl

theorem cleanupExpiredReports_as_map (store : List OwnerReport) (cutoff : Nat)
    (deleteFails : String → Bool) (now : Nat) :
    cleanupExpiredReports store cutoff deleteFails now =
      store.map (fun x =>
        (listExpiredCompleted store cutoff).foldl
          (fun y r => sweepStep deleteFails now r y) x) := by
  unfold cleanupExpiredReports
  have hbody : (fun (acc : List OwnerReport) (r : OwnerReport) =>
      match r.pptx_path with
      | some p => if deleteFails p then acc else clearArtifactPath acc r.id now
      | none => clearArtifactPath acc r.id now) =
      fun acc r => acc.map (sweepStep deleteFails now r) :=
    funext fun acc => funext fun r => cleanup_step_as_map deleteFails now r acc
  rw [hbody]
  exact foldl_map_comm _ _ _

theorem foldl_sweepStep_fix {rs : List OwnerReport} {y : OwnerReport}
    (deleteFails : String → Bool) (now : Nat) (h : ∀ r ∈ rs, r.id ≠ y.id) :
    rs.foldl (fun y r => sweepStep deleteFails now r y) y = y := by
  induction rs with
  | nil => rfl
  | cons r rest ih =>
    rw [List.foldl_cons]
    have hid : (y.id == r.id) = false := by
      simp only [beq_eq_false_iff_ne, ne_eq]
      exact fun e => h r (List.mem_cons_self r rest) e.symm
    have hstep : sweepStep deleteFails now r y = y := by
      unfold sweepStep
      cases hp : r.pptx_path with
      | none => simp [hid]
      | some p => by_cases hf : deleteFails p = true <;> simp [hid, hf]
    rw [hstep]
    exact ih (fun r2 h2 => h r2 (List.mem_cons_of_mem _ h2))

theorem sweepSpec_id (cutoff : Nat) (deleteFails : String → Bool) (now : Nat)
    (r : OwnerReport) : (sweepSpec cutoff deleteFails now r).id = r.id := by
  unfold sweepSpec
  by_cases he : isExpiredCompleted cutoff r = true
  · rw [if_pos he]
    cases hp : r.pptx_path with
    | none => rfl
    | some p => by_cases hf : deleteFails p = true <;> simp [hf]
  · rw [if_neg he]

theorem sweep_pointwise (store : List OwnerReport) (cutoff : Nat)
    (deleteFails : String → Bool) (now : Nat) (x : OwnerReport)
    (hids : (store.map (fun r => r.id)).Nodup) (hx : x ∈ store) :
    (listExpiredCompleted store cutoff).foldl
      (fun y r => sweepStep deleteFails now r y) x =
      sweepSpec cutoff deleteFails now x := by
  have hnd : ((listExpiredCompleted store cutoff).map (fun r => r.id)).Nodup :=
    (((List.filter_sublist store).map (fun r => r.id))).nodup hids
  by_cases hexp : isExpiredCompleted cutoff x = true
  · have hxrs : x ∈ listExpiredCompleted store cutoff :=
      List.mem_filter.mpr ⟨hx, hexp⟩
    obtain ⟨l1, l2, hsplit⟩ := List.append_of_mem hxrs
    rw [hsplit] at hnd
    simp only [List.map_append, List.map_cons, List.nodup_append, List.nodup_cons,
      List.mem_append, List.mem_cons, List.mem_map] at hnd
    have h1 : ∀ r ∈ l1, r.id ≠ x.id := by
      intro r hr he
      exact hnd.2.2 (List.mem_map.mpr ⟨r, hr, rfl⟩)
        (by rw [he]; exact List.mem_cons_self _ _)
    have h2 : ∀ r ∈ l2, r.id ≠ x.id := by
      intro r hr he
      exact hnd.2.1.1 ⟨r, hr, he⟩
    rw [hsplit, List.foldl_append,
      foldl_sweepStep_fix deleteFails now h1, List.foldl_cons]
    have hsome : x.pptx_path.isSome = true := by
      unfold isExpiredCompleted at hexp
      simp only [Bool.and_eq_true] at hexp
      exact hexp.1.2
    obtain ⟨p, hp⟩ := Option.isSome_iff_exists.mp hsome
    have hstep : sweepStep deleteFails now x x = sweepSpec cutoff deleteFails now x := by
      unfold sweepStep sweepSpec
      rw [if_pos hexp, hp]
      by_cases hf : deleteFails p = true <;> simp [hf]
    rw [hstep]
    apply foldl_sweepStep_fix
    intro r hr
    rw [sweepSpec_id]
    exact h2 r hr
  · have hfix : ∀ r ∈ listExpiredCompleted store cutoff, r.id ≠ x.id := by
      intro r hr he
      have hrf := List.mem_filter.mp hr
      have heq := List.inj_on_of_nodup_map hids hrf.1 hx he
      rw [heq] at hrf
      exact hexp hrf.2
    rw [foldl_sweepStep_fix deleteFails now hfix]
    unfold sweepSpec
    rw [if_neg hexp]

/-- With distinct row ids, the sweep is exactly the pointwise `sweepSpec`
applied to every row of the store. -/
theorem cleanupExpiredReports_eq_map (store : List OwnerReport) (cutoff : Nat)
    (deleteFails : String → Bool) (now : Nat)
    (hids : (store.map (fun r => r.id)).Nodup) :
    cleanupExpiredReports store cutoff deleteFails now =
      store.map (sweepSpec cutoff deleteFails now) := by
  rw [cleanupExpiredReports_as_map]
  apply List.map_congr_left
  intro x hx
  exact sweep_pointwise store cutoff deleteFails now x hids hx

/-! ## Poll / claim characterisation -/

theorem pollForPendingJob_spec {store : List OwnerReport} {j : OwnerReport}
    (h : pollForPendingJob store = some j) :
    j ∈ pendingJobs store ∧ ∀ k ∈ pendingJobs store, j.created_at ≤ k.created_at := by
  unfold pollForPendingJob at h
  have hsort : List.Sorted pollLe (List.insertionSort pollLe (pendingJobs store)) :=
    List.sorted_insertionSort pollLe (pendingJobs store)
  have hperm : (List.insertionSort pollLe (pendingJobs store)).Perm (pendingJobs store) :=
    List.perm_insertionSort pollLe (pendingJobs store)
  generalize hs : List.insertionSort pollLe (pendingJobs store) = sorted at h hsort hperm
  cases sorted with
  | nil => simp at h
  | cons a tail =>
    simp only [List.head?_cons, Option.some.injEq] at h
    subst h
    constructor
    · exact hperm.mem_iff.mp (List.mem_cons_self a tail)
    · intro k hk
      have hk2 : k ∈ a :: tail := hperm.mem_iff.mpr hk
      rcases List.mem_cons.mp hk2 with he | ht
      · rw [he]
      · exact List.rel_of_sorted_cons hsort k ht

theorem pollForPendingJob_empty {store : List OwnerReport}
    (h : pendingJobs store = []) : pollForPendingJob store = none := by
  unfold pollForPendingJob
  rw [h]
  rfl

theorem pollForPendingJob_nonempty {store : List OwnerReport}
    (h : pendingJobs store ≠ []) : ∃ j, pollForPendingJob store = some j := by
  unfold pollForPendingJob
  have hperm := List.perm_insertionSort pollLe (pendingJobs store)
  cases hs : List.insertionSort pollLe (pendingJobs store) with
  | nil =>
    exact absurd (List.Perm.symm (hs ▸ hperm)).eq_nil h
  | cons a tail => exact ⟨a, rfl⟩

theorem pendingJobs_status {store : List OwnerReport} {j : OwnerReport}
    (h : j ∈ pendingJobs store) : j ∈ store ∧ j.status = .pending := by
  have := List.mem_filter.mp h
  refine ⟨this.1, ?_⟩
  simpa using this.2

/-! ## Validation and pipeline facts -/

theorem insufficientNotesMessage_ne_empty (n : Nat) : insufficientNotesMessage n ≠ "" := by
  intro h
  have hlen := congrArg String.length h
  unfold insufficientNotesMessage at hlen
  rw [String.length_append, String.length_append, String.length_append,
    String.length_append] at hlen
  have h1 : ("Insufficient daily log data (found " : String).length = 35 := rfl
  have h0 : ("" : String).length = 0 := rfl
  rw [h1, h0] at hlen
  omega

theorem validateReportData_notes_violation (notes : List DailyLogNote)
    (images : List ProcoreImage) (h : notes.length < MIN_NOTES_COUNT) :
    validateReportData notes images =
      { valid := false, error := some (insufficientNotesMessage notes.length),
        notesCount := notes.length, photosCount := images.length } := by
  unfold validateReportData
  rw [if_pos h]

theorem validateReportData_photos_violation (notes : List DailyLogNote)
    (images : List ProcoreImage) (h1 : MIN_NOTES_COUNT ≤ notes.length)
    (h2 : images.length < MIN_PHOTOS_COUNT) :
    validateReportData notes images =
      { valid := false, error := some (insufficientPhotosMessage images.length),
        notesCount := notes.length, photosCount := images.length } := by
  unfold validateReportData
  rw [if_neg (by omega), if_pos h2]

theorem validateReportData_ok (notes : List DailyLogNote) (images : List ProcoreImage)
    (h1 : MIN_NOTES_COUNT ≤ notes.length) (h2 : MIN_PHOTOS_COUNT ≤ images.length) :
    validateReportData notes images =
      { valid := true, error := none,
        notesCount := notes.length, photosCount := images.length } := by
  unfold validateReportData
  rw [if_neg (by omega), if_neg (by omega)]

theorem generateReportTry_invalid (maxC : Nat) (notes : List DailyLogNote)
    (images : List ProcoreImage) (s : Except String NotesSummaryResult)
    (si : Except String (List Int)) (rend : Except String (String × String))
    (hv : (validateReportData notes images).valid = false)
    (he : jsTruthyStr (validateReportData notes images).error = true) :
    generateReportTry maxC
      { fetchNotes := .ok notes, fetchImages := .ok images,
        summarize := s, selectImages := si, render := rend } =
      (.error (.validation ((validateReportData notes images).error.getD "")),
       ["getDailyNotesForMonth", "getImagesForMonth", "validateReportData"]) := by
  unfold generateReportTry
  dsimp only
  rw [if_pos ⟨hv, he⟩]

/-! ## Concrete fixtures used by the claim theorems -/

/-- A pool image created on the given day (normalized date is `day`). -/
def dayImage (i : Int) (day : String) (sz : Option Int) (desc : Option String) :
    ProcoreImage :=
  { id := i, log_date := none, created_at := day ++ "T08:00:00Z",
    description := desc, size := sz, filename := none }

def c1job : OwnerReport :=
  { id := 1, status := .pending, created_at := 100, started_at := none,
    completed_at := none, updated_at := 100, pptx_path := none,
    error_message := none, procore_project_id := some 5 }

def c2note (i : Int) : DailyLogNote := { id := i, comment := "note" }

def c2notes : List DailyLogNote := [c2note 1, c2note 2]

def c2images : List ProcoreImage :=
  (List.range 10).map (fun i => dayImage (Int.ofNat i) "2025-11-10" none none)

def c2collab : Collaborators :=
  { fetchNotes := .ok c2notes, fetchImages := .ok c2images,
    summarize := .error "unreached", selectImages := .error "unreached",
    render := .error "unreached" }

def c3pool : List ProcoreImage :=
  [dayImage 1 "2025-11-10" (some 3) none, dayImage 2 "2025-11-10" (some 2) none,
   dayImage 3 "2025-11-10" (some 1) none]

def c4i1 : ProcoreImage := dayImage 1 "2025-01-02" none none

def c4i2 : ProcoreImage := dayImage 2 "2025-01-03" none none

def c4s1 : PhotoDaySuggestion := { date := "2025-01-02", reason := none, priority := some 1000 }

def c4s2 : PhotoDaySuggestion := { date := "2025-01-03", reason := none, priority := none }

def pool200 : List ProcoreImage :=
  (List.range 200).map (fun i => dayImage (Int.ofNat i) "2025-11-10" none none)

def sugg1 : PhotoDaySuggestion := { date := "2025-11-10", reason := none, priority := some 1 }

def c6notes : List DailyLogNote := [⟨1, "a"⟩, ⟨2, "b"⟩]

def c6images : List ProcoreImage :=
  (List.range 10).map (fun i => dayImage (Int.ofNat i) "2025-11-12" none none)

def c7fails (p : String) : Bool := p == "reports/a.pptx"

def c7job (i : Nat) (st : JobStatus) (ct : Option Nat) (p : Option String) : OwnerReport :=
  { id := i, status := st, created_at := 0, started_at := none, completed_at := ct,
    updated_at := 0, pptx_path := p, error_message := none, procore_project_id := none }

/-- A store holding: a job whose artifact deletion fails, a job exactly at
the retention boundary, a strictly expired job after the failing one, and
a pending job. -/
def c7store : List OwnerReport :=
  [c7job 1 .completed (some 99) (some "reports/a.pptx"),
   c7job 2 .completed (some 100) (some "reports/b.pptx"),
   c7job 3 .completed (some 99) (some "reports/c.pptx"),
   c7job 4 .pending none none]

def j8a : OwnerReport :=
  { id := 1, status := .pending, created_at := 10, started_at := none,
    completed_at := none, updated_at := 10, pptx_path := none,
    error_message := none, procore_project_id := some 5 }

def j8b : OwnerReport :=
  { id := 2, status := .pending, created_at := 5, started_at := none,
    completed_at := none, updated_at := 5, pptx_path := none,
    error_message := none, procore_project_id := some 5 }

def j8c : OwnerReport :=
  { id := 3, status := .completed, created_at := 1, started_at := some 2,
    completed_at := some 3, updated_at := 3, pptx_path := some "reports/x.pptx",
    error_message := none, procore_project_id := some 5 }

def store8 : List OwnerReport := [j8a, j8b, j8c]

def c9img : ProcoreImage :=
  { id := 7, log_date := none, created_at := "", description := none,
    size := none, filename := none }

def c9dated : ProcoreImage := dayImage 5 "2025-11-10" none none

def c9sugg : PhotoDaySuggestion := { date := "2025-11-10", reason := none, priority := some 1 }

def c10img : ProcoreImage := dayImage 4 "2025-11-09" none none

/-! ## Claim theorems -/

/-- Claim C1 (code-bug evidence): with one pending job in the store, the
interleaving in which both workers poll before either marks — every step
an individually atomic database call — hands the same job to both callers,
and both unconditional mark-processing updates succeed.  The claim's
"exactly one caller receives the job" is violated because the claim step
is a read followed by an unguarded update, not an atomic conditional
claim. -/
theorem c1_both_workers_claim_same_job :
    (twoWorkerInterleavedClaim [c1job] 5 6).1 = (some c1job, some c1job) ∧
    (twoWorkerInterleavedClaim [c1job] 5 6).2 =
      [{ c1job with status := .processing, started_at := some 6, updated_at := 6 }] := by
  constructor
  · decide
  · decide

/-- Claim C2 (code-bug evidence): when the validation stage throws a
`ValidationError`, `generateReport` catches it and returns a plain failure
record, and `processJob` re-throws a plain `Error`, so its
`instanceof ValidationError` branch never fires: the single terminal
`markFailed` write carries the generic message, not the validation
message.  (The "exactly one terminal markFailed write" half of the claim
is visible in the literal write list.) -/
theorem c2_validation_message_not_passed_verbatim :
    (generateReportTry DEFAULT_MAX_CANDIDATES c2collab).1 =
      .error (.validation (insufficientNotesMessage 2)) ∧
    processJobWrites 11 (some 77) c2collab (.ok "reports/11/r.pptx") =
      [.markProcessing 11, .markFailed 11 GENERIC_FAILURE_MSG] ∧
    GENERIC_FAILURE_MSG ≠ insufficientNotesMessage 2 := by
  refine ⟨by decide, by decide, by decide⟩

/-- Claim C3 (counterexample): with three pool images, no suggestions,
`minCandidates = 1` and `maxCandidates = 3`, the pass-2 fill returns all
three images; the claim's "appending stops as soon as the selected count
reaches minCandidates" predicts a single image. -/
theorem c3_counterexample :
    (selectCandidateImagesForMonth c3pool [] (some 3) (some 1)).length = 3 ∧
    (selectCandidateImagesForMonth c3pool [] (some 3) (some 1)).length ≠ 1 := by
  refine ⟨by decide, by decide⟩

/-- Claim C3 (amended): if after pass 1 the selected count is below
`minCandidates`, the remaining pool images are appended sorted by presence
of a non-empty description (described first) and then byte size descending
(missing size 0), and appending stops only when the selected count reaches
`maxCandidates` or the pool is exhausted; `minCandidates` only gates
whether the fill runs at all.  (With no suggestions and nonzero
`minCandidates` the output size is exactly `min maxCandidates poolSize`.) -/
theorem c3_pass2_fills_to_max :
    (∀ imgs : List ProcoreImage,
      List.Pairwise (fun a b => (hasDesc a = true ∧ hasDesc b = false) ∨
        (hasDesc a = hasDesc b ∧ b.size.getD 0 ≤ a.size.getD 0))
        (List.insertionSort pass2R imgs)) ∧
    (∀ (images : List ProcoreImage) (maxC minC : Nat),
      (images.map (fun x => x.id)).Nodup → 1 ≤ maxC → 1 ≤ minC →
      (selectCandidateImagesForMonth images [] (some maxC) (some minC)).length =
        Nat.min maxC images.length) := by
  constructor
  · intro imgs
    have hs := List.sorted_insertionSort pass2R imgs
    exact hs.imp (fun h => (pass2Le_iff _ _).mp h)
  · intro images maxC minC hnd hmax hmin
    simp only [selectCandidateImagesForMonth, Option.getD_some]
    by_cases he : images.length = 0
    · rw [if_pos he]
      simp [he]
    · rw [if_neg he]
      rw [(finalizeSelection_perm _).length_eq]
      exact selectCore_no_suggs_length images maxC minC hnd hmax hmin

/-- Witness for C3's amended theorem at a concrete pool. -/
theorem c3_pass2_fills_to_max_witness :
    (c3pool.map (fun x => x.id)).Nodup ∧
    (selectCandidateImagesForMonth c3pool [] (some 3) (some 1)).length =
      Nat.min 3 c3pool.length :=
  ⟨by decide, c3_pass2_fills_to_max.2 c3pool 3 1 (by decide) (by decide) (by decide)⟩

/-- Claim C4 (counterexample): a suggestion with explicit priority `1000`
sorts after a suggestion with no priority (sentinel `999`), so "missing
priority sorts last" fails: with `maxCandidates = 1` the selector takes
the image on the missing-priority suggestion's date, not the image on the
priority-1000 suggestion's date. -/
theorem c4_counterexample :
    selectCandidateImagesForMonth [c4i1, c4i2] [c4s1, c4s2] (some 1) (some 0) = [c4i2] ∧
    ([c4i2] : List ProcoreImage) ≠ [c4i1] := by
  refine ⟨by decide, by decide⟩

set_option maxRecDepth 10000 in
/-- Claim C4 (amended): pass 1 processes suggestions sorted by priority
ascending with a missing priority treated as the sentinel `999` (ties by
date ascending), adds only pool images whose normalized date equals a
suggestion's date or its true calendar-day neighbours, short-circuits at
`maxCandidates` (so the output never exceeds it when it is positive), and
the 200-image pool on a suggested date with `maxCandidates = 60` yields
exactly 60 candidates. -/
theorem c4_pass1_priority_order_and_cap :
    (∀ suggs : List PhotoDaySuggestion,
      List.Pairwise (fun a b =>
        a.priority.getD 999 < b.priority.getD 999 ∨
          (a.priority.getD 999 = b.priority.getD 999 ∧
            (strLtb a.date b.date = true ∨ a.date = b.date)))
        (List.insertionSort suggR suggs)) ∧
    (∀ (images : List ProcoreImage) (suggs : List PhotoDaySuggestion) (maxC : Nat)
      (x : ProcoreImage),
      x ∈ (pass1 maxC (groupImagesByDate images) [] (List.insertionSort suggR suggs)).1 →
        x ∈ images ∧ ∃ day ∈ suggs,
          getImageDate x = some day.date ∨
          getImageDate x = some (shiftDate day.date (-1)) ∨
          getImageDate x = some (shiftDate day.date 1)) ∧
    (shiftDate "2025-11-01" (-1) = "2025-10-31" ∧ shiftDate "2025-12-31" 1 = "2026-01-01" ∧
      shiftDate "2024-03-01" (-1) = "2024-02-29") ∧
    (∀ (images : List ProcoreImage) (suggs : List PhotoDaySuggestion)
      (optMax optMin : Option Nat),
      1 ≤ optMax.getD DEFAULT_MAX_CANDIDATES →
      (selectCandidateImagesForMonth images suggs optMax optMin).length ≤
        optMax.getD DEFAULT_MAX_CANDIDATES) ∧
    (selectCandidateImagesForMonth pool200 [sugg1] (some 60) (some 20)).length = 60 := by
  refine ⟨?_, ?_, ⟨by decide, by decide, by decide⟩, ?_, by decide⟩
  · intro suggs
    have hs := List.sorted_insertionSort suggR suggs
    exact hs.imp (fun h => (suggLe_iff _ _).mp h)
  · intro images suggs maxC x hx
    rcases pass1_mem _ _ _ _ hx with h0 | ⟨day, hday, hd⟩
    · exact absurd h0 (List.not_mem_nil x)
    · have hdaysugg : day ∈ suggs :=
        (List.perm_insertionSort suggR suggs).mem_iff.mp hday
      rcases hd with hd | hd | hd
      · exact ⟨(mem_byDateGet_group hd).1, day, hdaysugg, Or.inl (mem_byDateGet_group hd).2⟩
      · exact ⟨(mem_byDateGet_group hd).1, day, hdaysugg,
          Or.inr (Or.inl (mem_byDateGet_group hd).2)⟩
      · exact ⟨(mem_byDateGet_group hd).1, day, hdaysugg,
          Or.inr (Or.inr (mem_byDateGet_group hd).2)⟩
  · intro images suggs optMax optMin hmax
    exact select_length_le images suggs optMax optMin hmax

/-- Witness for C4's amended theorem at a concrete input. -/
theorem c4_pass1_priority_order_and_cap_witness :
    1 ≤ (some 2 : Option Nat).getD DEFAULT_MAX_CANDIDATES ∧
    (selectCandidateImagesForMonth [c4i1] [] (some 2) (some 0)).length ≤
      (some 2 : Option Nat).getD DEFAULT_MAX_CANDIDATES :=
  ⟨by decide,
   c4_pass1_priority_order_and_cap.2.2.2.1 [c4i1] [] (some 2) (some 0) (by decide)⟩

/-- Claim C5: the selector's output is always sorted by normalized date
ascending (code-point order on the `YYYY-MM-DD` keys, missing date read as
`""`), ties broken by id ascending, and — being a pure function — the same
input invoked twice yields identical output. -/
theorem c5_final_order_and_determinism :
    ∀ (images : List ProcoreImage) (suggs : List PhotoDaySuggestion)
      (optMax optMin : Option Nat),
      List.Pairwise (fun a b =>
          strLtb (dateKey a) (dateKey b) = true ∨ (dateKey a = dateKey b ∧ a.id ≤ b.id))
        (selectCandidateImagesForMonth images suggs optMax optMin) ∧
      selectCandidateImagesForMonth images suggs optMax optMin =
        selectCandidateImagesForMonth images suggs optMax optMin := by
  intro images suggs optMax optMin
  refine ⟨?_, rfl⟩
  have hs := select_sorted images suggs optMax optMin
  refine hs.imp (fun h => ?_)
  rcases (finalLe_iff _ _).mp h with ⟨he, hi⟩ | ⟨hn, hlt⟩
  · exact Or.inr ⟨he, hi⟩
  · exact Or.inl hlt

/-- Claim C6: defaults are 4 notes / 5 photos, notes are checked first and
only the first violated threshold is reported; `validate(2, 10)` is
invalid with the notes message, and on any violation the pipeline throws a
`ValidationError` after exactly the fetch and validation stages — the
recorded collaborator trace contains no summarizer, ranker, or rendering
call. -/
theorem c6_validation_gate :
    (MIN_NOTES_COUNT = 4 ∧ MIN_PHOTOS_COUNT = 5) ∧
    (∀ (notes : List DailyLogNote) (images : List ProcoreImage),
      notes.length < MIN_NOTES_COUNT →
      validateReportData notes images =
        { valid := false, error := some (insufficientNotesMessage notes.length),
          notesCount := notes.length, photosCount := images.length }) ∧
    (∀ (notes : List DailyLogNote) (images : List ProcoreImage),
      MIN_NOTES_COUNT ≤ notes.length → images.length < MIN_PHOTOS_COUNT →
      validateReportData notes images =
        { valid := false, error := some (insufficientPhotosMessage images.length),
          notesCount := notes.length, photosCount := images.length }) ∧
    (∀ (notes : List DailyLogNote) (images : List ProcoreImage)
      (s : Except String NotesSummaryResult) (si : Except String (List Int))
      (rend : Except String (String × String)) (maxC : Nat),
      notes.length = 2 → images.length = 10 →
      generateReportTry maxC
        { fetchNotes := .ok notes, fetchImages := .ok images,
          summarize := s, selectImages := si, render := rend } =
        (.error (.validation (insufficientNotesMessage 2)),
         ["getDailyNotesForMonth", "getImagesForMonth", "validateReportData"])) := by
  refine ⟨⟨rfl, rfl⟩, validateReportData_notes_violation,
    validateReportData_photos_violation, ?_⟩
  intro notes images s si rend maxC hn hp
  have hval := validateReportData_notes_violation notes images
    (by rw [hn, show MIN_NOTES_COUNT = 4 from rfl]; omega)
  rw [generateReportTry_invalid maxC notes images s si rend (by rw [hval])
    (by rw [hval]; simpa [jsTruthyStr] using insufficientNotesMessage_ne_empty notes.length)]
  rw [hval, hn]
  rfl

/-- Witness for C6 at a concrete input with 2 notes and 10 photos. -/
theorem c6_validation_gate_witness :
    c6notes.length = 2 ∧ c6images.length = 10 ∧
    generateReportTry 60
      { fetchNotes := .ok c6notes, fetchImages := .ok c6images,
        summarize := .error "x", selectImages := .error "x", render := .error "x" } =
      (.error (.validation (insufficientNotesMessage 2)),
       ["getDailyNotesForMonth", "getImagesForMonth", "validateReportData"]) :=
  ⟨by decide, by decide,
   c6_validation_gate.2.2.2 c6notes c6images (.error "x") (.error "x") (.error "x") 60
     (by decide) (by decide)⟩

/-- Claim C7: with distinct row ids the retention sweep equals the
pointwise `sweepSpec` on every row — exactly the completed rows with a
non-null path strictly older than the cutoff and a successful storage
deletion get their path cleared; a row completed exactly at the cutoff is
retained; a row whose deletion fails keeps its path (and, by the pointwise
form, later rows are still swept). -/
theorem c7_retention_sweep :
    (∀ (store : List OwnerReport) (cutoff : Nat) (deleteFails : String → Bool) (now : Nat),
      (store.map (fun r => r.id)).Nodup →
      cleanupExpiredReports store cutoff deleteFails now =
        store.map (sweepSpec cutoff deleteFails now)) ∧
    (∀ (cutoff now : Nat) (deleteFails : String → Bool) (r : OwnerReport),
      r.completed_at = some cutoff → sweepSpec cutoff deleteFails now r = r) ∧
    (∀ (cutoff now : Nat) (deleteFails : String → Bool) (r : OwnerReport) (p : String)
      (t : Nat),
      r.status = .completed → r.pptx_path = some p → r.completed_at = some t →
      t < cutoff → deleteFails p = false →
      sweepSpec cutoff deleteFails now r =
        { r with pptx_path := none, updated_at := now }) ∧
    (∀ (cutoff now : Nat) (deleteFails : String → Bool) (r : OwnerReport) (p : String),
      r.pptx_path = some p → deleteFails p = true →
      sweepSpec cutoff deleteFails now r = r) := by
  refine ⟨cleanupExpiredReports_eq_map, ?_, ?_, ?_⟩
  · intro cutoff now deleteFails r hc
    unfold sweepSpec
    rw [if_neg (by simp [isExpiredCompleted, hc])]
  · intro cutoff now deleteFails r p t hs hp hc hlt hf
    have hexp : isExpiredCompleted cutoff r = true := by
      simp [isExpiredCompleted, hs, hp, hc, hlt]
    unfold sweepSpec
    rw [if_pos hexp, hp]
    simp [hf]
  · intro cutoff now deleteFails r p hp hf
    unfold sweepSpec
    by_cases he : isExpiredCompleted cutoff r = true <;> simp [he, hp, hf]

/-- Witness for C7 at a concrete store holding a failing deletion, a
boundary row, a strictly expired row after the failure, and a pending
row. -/
theorem c7_retention_sweep_witness :
    (c7store.map (fun r => r.id)).Nodup ∧
    cleanupExpiredReports c7store 100 c7fails 7 =
      c7store.map (sweepSpec 100 c7fails 7) ∧
    cleanupExpiredReports c7store 100 c7fails 7 =
      [c7job 1 .completed (some 99) (some "reports/a.pptx"),
       c7job 2 .completed (some 100) (some "reports/b.pptx"),
       { c7job 3 .completed (some 99) (some "reports/c.pptx") with
          pptx_path := none, updated_at := 7 },
       c7job 4 .pending none none] :=
  ⟨by decide, c7_retention_sweep.1 c7store 100 c7fails 7 (by decide), by decide⟩

/-- Claim C8: under distinct created timestamps among pending rows, the
claim step (poll, then mark the polled row) returns the pending row with
the strictly earliest `created` timestamp, transitions exactly it to
`processing` with `started`/`updated` set, and returns `none` (leaving the
store untouched) when no pending row exists. -/
theorem c8_claim_oldest_pending :
    ∀ (store : List OwnerReport) (now : Nat),
      ((pendingJobs store).map (fun r => r.created_at)).Nodup →
      ((pendingJobs store = [] → claimNextPending store now = (none, store)) ∧
       (pendingJobs store ≠ [] → ∃ j, pollForPendingJob store = some j) ∧
       (∀ j, pollForPendingJob store = some j →
          claimNextPending store now = (some j, markJobProcessing store j.id now) ∧
          j ∈ store ∧ j.status = .pending ∧
          (∀ k ∈ pendingJobs store, k ≠ j → j.created_at < k.created_at) ∧
          { j with status := .processing, started_at := some now, updated_at := now } ∈
            markJobProcessing store j.id now)) := by
  intro store now hnd
  refine ⟨?_, pollForPendingJob_nonempty, ?_⟩
  · intro h
    unfold claimNextPending
    rw [pollForPendingJob_empty h]
  · intro j hj
    have hspec := pollForPendingJob_spec hj
    have hstat := pendingJobs_status hspec.1
    refine ⟨?_, hstat.1, hstat.2, ?_, ?_⟩
    · unfold claimNextPending
      rw [hj]
    · intro k hk hne
      have hle := hspec.2 k hk
      rcases Nat.lt_or_ge j.created_at k.created_at with h | h
      · exact h
      · have he : k.created_at = j.created_at := Nat.le_antisymm (by omega) (by omega)
        exact absurd (List.inj_on_of_nodup_map hnd hk hspec.1 he) hne
    · unfold markJobProcessing
      refine List.mem_map.mpr ⟨j, hstat.1, ?_⟩
      simp

/-- Witness for C8 at a concrete store of two pending rows (created 10 and
5) and one completed row: the created-5 row is claimed. -/
theorem c8_claim_oldest_pending_witness :
    ((pendingJobs store8).map (fun r => r.created_at)).Nodup ∧
    pollForPendingJob store8 = some j8b ∧
    claimNextPending store8 7 = (some j8b, markJobProcessing store8 j8b.id 7) :=
  ⟨by decide, by decide,
   ((c8_claim_oldest_pending store8 7 (by decide)).2.2 j8b (by decide)).1⟩

/-- Claim C9 (counterexample): an image with no usable `log_date` and no
usable `created_at` has no normalized date, yet the selector's pass-2 fill
returns it — the claim's "excluded from candidate consideration entirely"
fails. -/
theorem c9_counterexample :
    getImageDate c9img = none ∧
    selectCandidateImagesForMonth [c9img] [] (some 5) (some 1) = [c9img] := by
  refine ⟨by decide, by decide⟩

/-- Claim C9 (amended): an image whose normalized date cannot be
determined is excluded from pass 1 (every pass-1 selection has a
determinable date), but pass 2's fill considers it and may append it; the
final sort reads a missing date as `""` and never crashes — it always
returns a permutation of the selection. -/
theorem c9_dateless_excluded_from_pass1_only :
    (∀ (images : List ProcoreImage) (suggs : List PhotoDaySuggestion) (maxC : Nat)
      (x : ProcoreImage),
      x ∈ (pass1 maxC (groupImagesByDate images) [] (List.insertionSort suggR suggs)).1 →
        (getImageDate x).isSome = true) ∧
    (getImageDate c9img = none ∧
      selectCandidateImagesForMonth [c9img] [] (some 5) (some 1) = [c9img]) ∧
    (∀ sel : List ProcoreImage, (finalizeSelection sel).length = sel.length) := by
  refine ⟨?_, ⟨by decide, by decide⟩, ?_⟩
  · intro images suggs maxC x hx
    rcases pass1_mem _ _ _ _ hx with h0 | ⟨day, _, hd⟩
    · exact absurd h0 (List.not_mem_nil x)
    · rcases hd with hd | hd | hd <;> rw [(mem_byDateGet_group hd).2] <;> rfl
  · intro sel
    exact (finalizeSelection_perm sel).length_eq

/-- Witness for C9's amended theorem: a dated image selected by pass 1
indeed has a determinable date. -/
theorem c9_dateless_excluded_from_pass1_only_witness :
    c9dated ∈ (pass1 60 (groupImagesByDate [c9dated]) []
      (List.insertionSort suggR [c9sugg])).1 ∧
    (getImageDate c9dated).isSome = true :=
  ⟨by decide,
   c9_dateless_excluded_from_pass1_only.1 [c9dated] [c9sugg] 60 c9dated (by decide)⟩

/-- Claim C10: every image the selector returns is an element of the input
pool, and no id occurs twice in the returned list. -/
theorem c10_subset_and_distinct_ids :
    ∀ (images : List ProcoreImage) (suggs : List PhotoDaySuggestion)
      (optMax optMin : Option Nat),
      (∀ x ∈ selectCandidateImagesForMonth images suggs optMax optMin, x ∈ images) ∧
      ((selectCandidateImagesForMonth images suggs optMax optMin).map
        (fun x => x.id)).Nodup :=
  fun images suggs optMax optMin =>
    ⟨fun _ hx => select_mem hx, select_nodup images suggs optMax optMin⟩

/-- Witness for C10 at a concrete pool and output member. -/
theorem c10_subset_and_distinct_ids_witness :
    c10img ∈ selectCandidateImagesForMonth [c10img] [] none none ∧
    c10img ∈ [c10img] ∧
    ((selectCandidateImagesForMonth [c10img] [] none none).map (fun x => x.id)).Nodup :=
  ⟨by decide,
   (c10_subset_and_distinct_ids [c10img] [] none none).1 c10img (by decide),
   (c10_subset_and_distinct_ids [c10img] [] none none).2⟩
